import Mathlib

/-!
Verification of the OfflineEbayMonitor core (the a_materials modules).

The development shallowly embeds the Python modules silver_math.py,
price_store.py, numismatic_rules.py, prospect_score.py, hit_engine.py and the
EMA-capture gate of silver_monitor.py into Lean.

Modelling conventions:
- Python floats are modelled as exact rational numbers.  Python round(x, n)
  is modelled by rounding x * 10^n to the nearest integer (pround below); all
  concrete inputs used in theorems stay away from rounding ties, where the
  binary-float tie-breaking of CPython would differ from any exact model.
- Python strings are modelled as lists of characters (Str below); titles in
  this repository are ASCII, so str.lower() is modelled by Char.toLower and
  the regex classes \s and \w by their ASCII meaning.
- The regular expressions appearing in the sources are embedded as explicit
  leftmost-match scanners over character lists, one matcher per pattern.
- Mutation of the price store is modelled by explicit state passing; the
  store (a Python dict) is an insertion-ordered association list with
  distinct keys, dict[key] = v replacing in place or appending at the end.
- Calls to time.time() / now_ts() are modelled by an explicit now parameter
  (utils.py only wraps int(time.time())).
-/

/-- Python strings modelled as lists of characters. -/
abbrev Str := List Char

namespace PyStr

/-- ASCII model of the regex class \s (Python whitespace). -/
def isSpaceChar (c : Char) : Bool :=
  c = ' ' || c = '\t' || c = '\n' || c = '\x0d' || c = '\x0c' || c = '\x0b'

/-- ASCII model of the regex class \w (word characters). -/
def isWordChar (c : Char) : Bool :=
  ('a' ≤ c && c ≤ 'z') || ('A' ≤ c && c ≤ 'Z') || ('0' ≤ c && c ≤ '9') || c = '_'

/-- ASCII decimal digit test. -/
def isDigitChar (c : Char) : Bool :=
  '0' ≤ c && c ≤ '9'

/-- Model of str.lower() for the ASCII titles of this repository. -/
def lower (s : Str) : Str := s.map Char.toLower

/-- Model of str.strip(): drop leading and trailing whitespace. -/
def strip (s : Str) : Str :=
  ((s.dropWhile isSpaceChar).reverse.dropWhile isSpaceChar).reverse

/-- Does hay start with needle? -/
def startsWithStr : Str → Str → Bool
  | [], _ => true
  | _ :: _, [] => false
  | a :: as, b :: bs => a = b && startsWithStr as bs

/-- Model of the Python substring test (needle in hay). -/
def containsStr (needle : Str) : Str → Bool
  | [] => startsWithStr needle []
  | c :: cs => startsWithStr needle (c :: cs) || containsStr needle cs

/-- Strip a literal prefix, returning the remainder on success. -/
def dropLit : Str → Str → Option Str
  | [], s => some s
  | _ :: _, [] => none
  | a :: as, b :: bs => if a = b then dropLit as bs else none

/-- Word boundary to the right: end of string or a non-word character. -/
def boundaryR (s : Str) : Bool :=
  match s with
  | [] => true
  | c :: _ => !isWordChar c

/-- Word boundary to the left of the current position, given the previous
character (none at the start of the string). -/
def boundaryL (prev : Option Char) : Bool :=
  match prev with
  | none => true
  | some c => !isWordChar c

/-- Leftmost-match scanner: try the position matcher f at every position of
the string (prev is the character just before the position), returning the
first success.  This is the embedding of re.search. -/
def scanPos (f : Option Char → Str → Option α) : Option Char → Str → Option α
  | prev, [] => f prev []
  | prev, c :: cs =>
    match f prev (c :: cs) with
    | some a => some a
    | none => scanPos f (some c) cs

/-- Convert a list of decimal digit characters to a number (the model of
int(...) on a digit-only group). -/
def charsToNat (s : Str) : Nat :=
  s.foldl (fun a c => a * 10 + (c.toNat - '0'.toNat)) 0

end PyStr

open PyStr

/-- Model of Python round(x, n): round x * 10^n to the nearest integer.
CPython rounds the underlying binary float half-to-even; every concrete value
appearing in the theorems below is away from a tie, where all roundings
agree. -/
def pround (n : ℕ) (q : ℚ) : ℚ :=
  (round (q * 10 ^ n) : ℤ) / 10 ^ n

/-- Configuration record: the attributes of config.py that the embedded
modules read.  The regex-valued lists PRICE_CAPTURE_DISQUALIFY_REGEX and
PROS_DISQUALIFY_REGEX are fixed in config.py and are embedded as fixed
matchers below rather than as configuration data. -/
structure Config where
  SPOT_PRICE : ℚ
  PAWN_PAYOUT_PCT : ℚ
  NUMISMATIC_PAYOUT_PCT : ℚ
  BID_OFFSET : ℚ
  MIN_MARGIN_PCT : ℚ
  PRICE_CAPTURE_ONLY_IF_BIDS : Bool
  PRICE_CAPTURE_BUMP_PCT : ℚ
  EMA_ALPHA : ℚ
  PRICE_CAPTURE_MAX_MINUTES : Option ℚ
  PROS_MAX_TOTAL : Option ℚ
  PROS_MIN_DEALER_MARGIN_PCT : ℚ
  PROS_MIN_SCORE : ℤ
  PROS_CAT3_MISPRICE_TOL_PCT : ℚ
  PROS_CAT3_MISPRICE_BONUS : ℤ
  PROS_CAT3_REQUIRE_ENDING_SOON : Bool
  PROS_CAT3_MAX_MINUTES : ℤ
  PROS_HARD_DISQUALIFY_KEYWORDS : List Str
  PROS_DISQUALIFY_KEYWORDS : List Str
  PROS_HYPE_KEYWORDS : List Str
  PROS_UNDERDESCRIBED_KEYWORDS : List Str
  PROS_HIGH_GRADE_KEYWORDS : List Str
  PRICE_CAPTURE_DISQUALIFY_KEYWORDS : List Str

/-- Listing record (model_types.Listing plus the end_time_ts attribute that
ebay_search_parser sets via setattr when the end time could be parsed;
endTimeTs = none models the attribute being absent). -/
structure Listing where
  title : Str
  itemPrice : ℚ
  shipping : ℚ
  totalPrice : ℚ
  bids : ℤ
  timeLeft : Str
  itemId : Option Str := none
  quantity : ℤ := 1
  ozPerCoin : ℚ := 0
  endTimeTs : Option ℚ := none

namespace SilverMath

/-- ASW constant for half dollars (silver_math.ASW_HALF_DOLLAR). -/
def ASW_HALF_DOLLAR : ℚ := 36169 / 100000

/-- ASW constant for silver dollars (silver_math.ASW_SILVER_DOLLAR). -/
def ASW_SILVER_DOLLAR : ℚ := 77344 / 100000

/-- ASW constant for silver eagles (silver_math.ASW_SILVER_EAGLE). -/
def ASW_SILVER_EAGLE : ℚ := 99 / 100

/-! Embedding of the regex ladder of extract_quantity_from_title.  Each
pattern is a position matcher fed to scanPos (the model of re.search).  A
group (\d{1,3})(?!\.) followed in the pattern by a token no digit can start
can only match a complete maximal digit run of length 1..3 (a shorter
greedy backtrack leaves the next character a digit, failing the rest of the
pattern), so each matcher takes the maximal digit run at the position. -/

/-- Take the maximal digit run at the head and require length 1..3 and the
negative lookahead (?!\.); returns (value, rest). -/
def grabQty (s : Str) : Option (ℕ × Str) :=
  let ds := s.takeWhile isDigitChar
  let rest := s.dropWhile isDigitChar
  if 1 ≤ ds.length && ds.length ≤ 3 && (match rest with
      | [] => true
      | c :: _ => c ≠ '.') then
    some (charsToNat ds, rest)
  else none

/-- Pattern \blot\s+of\s+(\d{1,3})(?!\.)\b with "lot" replaced by w (covers
the roll variant as well). -/
def qtyWordOf (w : Str) (prev : Option Char) (s : Str) : Option ℕ := do
  guard (boundaryL prev)
  let s ← dropLit w s
  let s1 := s.takeWhile isSpaceChar
  guard (s1 ≠ [])
  let s := s.dropWhile isSpaceChar
  let s ← dropLit ['o', 'f'] s
  let s2 := s.takeWhile isSpaceChar
  guard (s2 ≠ [])
  let s := s.dropWhile isSpaceChar
  let (q, rest) ← grabQty s
  guard (boundaryR rest)
  pure q

/-- Pattern \b(\d{1,3})(?!\.)\s+word s?\b ("N coins", "N pieces"): digits,
at least one space, the word w, an optional trailing s, word boundary. -/
def qtyNumWord (w : Str) (prev : Option Char) (s : Str) : Option ℕ := do
  guard (boundaryL prev)
  let (q, rest) ← grabQty s
  let s1 := rest.takeWhile isSpaceChar
  guard (s1 ≠ [])
  let rest := rest.dropWhile isSpaceChar
  let rest ← dropLit w rest
  match rest with
  | 's' :: tl =>
    if boundaryR tl then pure q
    else do
      guard (boundaryR rest)
      pure q
  | _ => do
    guard (boundaryR rest)
    pure q

/-- Pattern \((\d{1,3})(?!\.)\). -/
def qtyParen (_prev : Option Char) (s : Str) : Option ℕ := do
  let s ← dropLit ['('] s
  let (q, rest) ← grabQty s
  let _ ← dropLit [')'] rest
  pure q

/-- Pattern \b(\d{1,3})(?!\.)\s*[xX]\b (the title is lowercased first). -/
def qtyNumX (prev : Option Char) (s : Str) : Option ℕ := do
  guard (boundaryL prev)
  let (q, rest) ← grabQty s
  let rest := rest.dropWhile isSpaceChar
  let rest ← dropLit ['x'] rest
  guard (boundaryR rest)
  pure q

/-- Pattern \b[xX]\s*(\d{1,3})(?!\.)\b (the title is lowercased first). -/
def qtyXNum (prev : Option Char) (s : Str) : Option ℕ := do
  guard (boundaryL prev)
  let s ← dropLit ['x'] s
  let s := s.dropWhile isSpaceChar
  let (q, rest) ← grabQty s
  guard (boundaryR rest)
  pure q

/-- Pattern \bqty[:\s]*(\d{1,3})(?!\.)\b. -/
def qtyQty (prev : Option Char) (s : Str) : Option ℕ := do
  guard (boundaryL prev)
  let s ← dropLit ['q', 't', 'y'] s
  let s := s.dropWhile (fun c => c = ':' || isSpaceChar c)
  let (q, rest) ← grabQty s
  guard (boundaryR rest)
  pure q

/-- Pattern \b(\d{1,3})(?!\.)\s*pcs\b. -/
def qtyNumPcs (prev : Option Char) (s : Str) : Option ℕ := do
  guard (boundaryL prev)
  let (q, rest) ← grabQty s
  let rest := rest.dropWhile isSpaceChar
  let rest ← dropLit ['p', 'c', 's'] rest
  guard (boundaryR rest)
  pure q

/-- The ordered pattern ladder of extract_quantity_from_title. -/
def qtyPatterns : List (Option Char → Str → Option ℕ) :=
  [ qtyWordOf ['l', 'o', 't']
  , qtyWordOf ['r', 'o', 'l', 'l']
  , qtyNumWord ['c', 'o', 'i', 'n']
  , qtyNumWord ['p', 'i', 'e', 'c', 'e']
  , qtyParen
  , qtyNumX
  , qtyXNum
  , qtyQty
  , qtyNumPcs ]

/-- Embedding of silver_math.extract_quantity_from_title: the first pattern
in the ladder whose leftmost match yields a quantity in (1, 600] wins;
default 1. -/
def extract_quantity_from_title (title : Str) : ℤ :=
  if title = [] then 1
  else
    let t := lower title
    let rec go : List (Option Char → Str → Option ℕ) → ℤ
      | [] => 1
      | p :: ps =>
        match scanPos p none t with
        | some q => if 1 < q ∧ q ≤ 600 then (q : ℤ) else go ps
        | none => go ps
    go qtyPatterns

/-- Embedding of silver_math.detect_oz_per_coin_from_title. -/
def detect_oz_per_coin_from_title (title : Str) : ℚ :=
  let t := lower title
  let halfTokens : List Str :=
    [ ['h','a','l','f',' ','d','o','l','l','a','r']
    , ['h','a','l','f','-','d','o','l','l','a','r']
    , ['5','0','c'], ['5','0','¢'], [' ','5','0',' ','c'], [' ','5','0','c'] ]
  if halfTokens.any (fun tok => containsStr tok t) then ASW_HALF_DOLLAR
  else if containsStr ['s','i','l','v','e','r',' ','e','a','g','l','e'] t
       || containsStr ['a','m','e','r','i','c','a','n',' ','e','a','g','l','e'] t then
    ASW_SILVER_EAGLE
  else
    let dollarTokens : List Str :=
      [ ['$','1'], ['d','o','l','l','a','r'], ['m','o','r','g','a','n'], ['p','e','a','c','e'] ]
    if dollarTokens.any (fun tok => containsStr tok t) then ASW_SILVER_DOLLAR
    else if containsStr ['s','e','a','t','e','d'] t then ASW_HALF_DOLLAR
    else ASW_HALF_DOLLAR

/-- Embedding of silver_math.compute_melt_value. -/
def compute_melt_value (totalOz spotPrice : ℚ) : ℚ := totalOz * spotPrice

/-- Embedding of silver_math.compute_payout. -/
def compute_payout (meltValue payoutPct : ℚ) : ℚ := meltValue * (payoutPct / 100)

/-- Embedding of silver_math.compute_profit. -/
def compute_profit (payout cost : ℚ) : ℚ := payout - cost

/-- Embedding of silver_math.compute_margin_pct. -/
def compute_margin_pct (profit cost : ℚ) : ℚ :=
  if cost ≤ 0 then 0 else profit / cost * 100

/-- Embedding of silver_math.compute_recommended_max_total. -/
def compute_recommended_max_total (meltPayout minMarginPct : ℚ) : ℚ :=
  let m := max 0 (minMarginPct / 100)
  if m ≤ 0 then pround 2 meltPayout
  else pround 2 (meltPayout / (1 + m))

/-- Embedding of silver_math.compute_recommended_max_item_only. -/
def compute_recommended_max_item_only (recMaxTotal shipping : ℚ) : ℚ :=
  pround 2 (max 0 (recMaxTotal - shipping))

/-- Embedding of silver_math.enrich_listing_silver_fields (pure version:
returns the updated listing). -/
def enrich_listing_silver_fields (l : Listing) : Listing :=
  let l := if l.quantity = 0 ∨ l.quantity < 1 then
      { l with quantity := extract_quantity_from_title l.title } else l
  if l.ozPerCoin = 0 ∨ l.ozPerCoin ≤ 0 then
      { l with ozPerCoin := detect_oz_per_coin_from_title l.title } else l

/-- The dict returned by silver_math.calc_silver. -/
structure SilverCalc where
  quantity : ℤ
  ozPerCoin : ℚ
  totalOz : ℚ
  meltValue : ℚ
  meltPayout : ℚ
  effectiveCost : ℚ
  profit : ℚ
  marginPct : ℚ
  recMaxTotal : ℚ
  recMaxItem : ℚ
  profitAtRecMax : ℚ
  marginAtRecMax : ℚ
deriving DecidableEq, Repr

/-- Embedding of silver_math.calc_silver with the spot/payout/offset
arguments left to their config defaults (as hit_engine calls it); listing
enrichment is applied first as in the source. -/
def calc_silver (cfg : Config) (l0 : Listing) : SilverCalc :=
  let l := enrich_listing_silver_fields l0
  let spot := cfg.SPOT_PRICE
  let payout := cfg.PAWN_PAYOUT_PCT
  let offset := cfg.BID_OFFSET
  let qty : ℤ := if l.quantity = 0 then 1 else l.quantity
  let ozPer := l.ozPerCoin
  let totalOz := (qty : ℚ) * ozPer
  let meltValue := compute_melt_value totalOz spot
  let meltPayout := compute_payout meltValue payout
  let cost := l.totalPrice + offset
  let profit := compute_profit meltPayout cost
  let marginPct := compute_margin_pct profit cost
  let recMaxTotal := compute_recommended_max_total meltPayout cfg.MIN_MARGIN_PCT
  let recMaxItem := compute_recommended_max_item_only recMaxTotal l.shipping
  let profitAtRec := meltPayout - recMaxTotal
  let marginAtRec := compute_margin_pct profitAtRec
    (if recMaxTotal > 0 then recMaxTotal else 0)
  { quantity := qty
    ozPerCoin := ozPer
    totalOz := totalOz
    meltValue := meltValue
    meltPayout := meltPayout
    effectiveCost := cost
    profit := profit
    marginPct := marginPct
    recMaxTotal := recMaxTotal
    recMaxItem := recMaxItem
    profitAtRecMax := profitAtRec
    marginAtRecMax := marginAtRec }

end SilverMath

namespace PriceStore

/-- One value of the price store:
[ema_price, samples, last_total_price, last_updated, observers_total]. -/
structure Entry where
  emaPrice : ℚ
  samples : ℤ
  lastTotalPrice : ℚ
  lastUpdated : ℤ
  observersTotal : ℤ
deriving DecidableEq, Repr

/-- The store: a Python dict modelled as an insertion-ordered association
list with distinct keys. -/
abbrev Store := List (Str × Entry)

/-- Model of store.get(key). -/
def Store.lookup : Store → Str → Option Entry
  | [], _ => none
  | (k', v) :: t, k => if k' = k then some v else Store.lookup t k

/-- Model of store[key] = v on a dict: replace in place if the key is
present, otherwise append at the end (insertion order). -/
def Store.insert : Store → Str → Entry → Store
  | [], k, v => [(k, v)]
  | (k', v') :: t, k, v =>
    if k' = k then (k, v) :: t else (k', v') :: Store.insert t k v

/-- Embedding of price_store.update_ema_entry.  The try/except blocks of the
source only guard against malformed legacy entries; entries of the typed
store are always well-formed, so the happy path is embedded. -/
def update_ema_entry (existing : Option Entry) (newTotalPrice : ℚ)
    (bidCount : ℤ) (alpha : ℚ) (now : ℤ) : Entry :=
  match existing with
  | none =>
    { emaPrice := pround 2 newTotalPrice
      samples := 1
      lastTotalPrice := pround 2 newTotalPrice
      lastUpdated := now
      observersTotal := bidCount }
  | some e =>
    let ema := alpha * newTotalPrice + (1 - alpha) * e.emaPrice
    { emaPrice := pround 2 ema
      samples := e.samples + 1
      lastTotalPrice := pround 2 newTotalPrice
      lastUpdated := now
      observersTotal := e.observersTotal + bidCount }

/-- Embedding of price_store.update_price: returns (updated?, new store).
totalPrice = none models total_price is None. -/
def update_price (cfg : Config) (store : Store) (key : Str)
    (totalPrice : Option ℚ) (bidCount : ℤ) (now : ℤ) : Bool × Store :=
  if key = [] then (false, store)
  else if cfg.PRICE_CAPTURE_ONLY_IF_BIDS ∧ bidCount < 1 then (false, store)
  else
    match totalPrice with
    | none => (false, store)
    | some tp =>
      if tp ≤ 0 then (false, store)
      else
        let bumped := tp * (1 + cfg.PRICE_CAPTURE_BUMP_PCT)
        let existing := store.lookup key
        (true, store.insert key
          (update_ema_entry existing bumped bidCount cfg.EMA_ALPHA now))

/-- Embedding of price_store.lookup_ema. -/
def lookup_ema (store : Store) (key : Str) : Option ℚ :=
  (store.lookup key).map Entry.emaPrice

/-- Embedding of price_store.lookup_observers. -/
def lookup_observers (store : Store) (key : Str) : Option ℤ :=
  (store.lookup key).map Entry.observersTotal

/-- Embedding of price_store.get_ema_value_and_observers (with the store
passed explicitly, as hit_engine effectively reads the current store). -/
def get_ema_value_and_observers (store : Store) (key : Str) :
    Option ℚ × Option ℤ :=
  (lookup_ema store key, lookup_observers store key)

end PriceStore

namespace NumisRules

/-- Canonical coin types produced by numismatic_rules._COIN_PATTERNS. -/
inductive CoinType
  | morganDollar
  | peaceDollar
  | barberHalf
  | seatedLibertyHalf
  | seatedLibertyDollar
  | walkingLibertyHalf
deriving DecidableEq, Repr

/-- Canonical label of a coin type (the strings of _COIN_PATTERNS). -/
def CoinType.label : CoinType → Str
  | .morganDollar => ['M','o','r','g','a','n',' ','D','o','l','l','a','r']
  | .peaceDollar => ['P','e','a','c','e',' ','D','o','l','l','a','r']
  | .barberHalf => ['B','a','r','b','e','r',' ','H','a','l','f']
  | .seatedLibertyHalf =>
      ['S','e','a','t','e','d',' ','L','i','b','e','r','t','y',' ','H','a','l','f']
  | .seatedLibertyDollar =>
      ['S','e','a','t','e','d',' ','L','i','b','e','r','t','y',' ','D','o','l','l','a','r']
  | .walkingLibertyHalf =>
      ['W','a','l','k','i','n','g',' ','L','i','b','e','r','t','y',' ','H','a','l','f']

/-- Leftmost occurrence of the word w with \b on both sides, scanning the
(lowercased) title; returns the suffix just after the occurrence on
success. -/
def findWordAfter (w : Str) (prev : Option Char) (s : Str) : Option Str :=
  scanPos (fun p s => do
    guard (boundaryL p)
    let rest ← dropLit w s
    guard (boundaryR rest)
    pure rest) prev s

/-- Does the (lowercased) title contain the word w with \b on both sides? -/
def containsWord (w : Str) (t : Str) : Bool :=
  (findWordAfter w none t).isSome

/-- Pattern \bw1\b.*\bw2\b: a word occurrence of w1 followed (anywhere
later) by a word occurrence of w2.  If any occurrence of w1 works then the
first one does, so the first occurrence is taken. -/
def wordThenWord (w1 w2 : Str) (t : Str) : Bool :=
  match findWordAfter w1 none t with
  | none => false
  | some rest => (findWordAfter w2 (some (w1.getLastD ' ')) rest).isSome

/-- Pattern \bw1\b.*\bw2\b.*\bw3\b. -/
def wordThenWordThenWord (w1 w2 w3 : Str) (t : Str) : Bool :=
  match findWordAfter w1 none t with
  | none => false
  | some rest =>
    match findWordAfter w2 (some (w1.getLastD ' ')) rest with
    | none => false
    | some rest2 => (findWordAfter w3 (some (w2.getLastD ' ')) rest2).isSome

/-- Pattern \bw1\s*w2\b (the second alternative of the barber pattern). -/
def wordGlueWord (w1 w2 : Str) (t : Str) : Bool :=
  (scanPos (fun p s => do
    guard (boundaryL p)
    let s ← dropLit w1 s
    let s := s.dropWhile isSpaceChar
    let s ← dropLit w2 s
    guard (boundaryR s)
    pure ()) none t).isSome

/-- Embedding of numismatic_rules._COIN_PATTERNS: the ordered keyword
pattern list, evaluated on the lowercased title (the source patterns carry
the re.I flag). -/
def firstCoinPattern (t : Str) : Option CoinType :=
  let morgan := ['m','o','r','g','a','n']
  let peace := ['p','e','a','c','e']
  let barber := ['b','a','r','b','e','r']
  let seated := ['s','e','a','t','e','d']
  let liberty := ['l','i','b','e','r','t','y']
  let half := ['h','a','l','f']
  let dollar := ['d','o','l','l','a','r']
  let walking := ['w','a','l','k','i','n','g']
  let walker := ['w','a','l','k','e','r']
  if containsWord morgan t then some .morganDollar
  else if containsWord peace t then some .peaceDollar
  else if wordThenWord barber half t || wordGlueWord barber half t then
    some .barberHalf
  else if wordThenWordThenWord seated liberty half t then some .seatedLibertyHalf
  else if wordThenWordThenWord seated liberty dollar t then some .seatedLibertyDollar
  else if wordThenWordThenWord walking liberty half t
       || wordThenWord walker half t then some .walkingLibertyHalf
  else none

/-- Embedding of numismatic_rules._YEAR_RE:
\b(17\d\d|18\d\d|19\d\d|20\d\d)\b, leftmost match. -/
def yearSearch (t : Str) : Option ℤ :=
  scanPos (fun p s => do
    guard (boundaryL p)
    match s with
    | c1 :: c2 :: c3 :: c4 :: rest =>
      guard (isDigitChar c1 && isDigitChar c2 && isDigitChar c3 && isDigitChar c4)
      guard ((c1 = '1' && (c2 = '7' || c2 = '8' || c2 = '9')) ||
             (c1 = '2' && c2 = '0'))
      guard (boundaryR rest)
      pure (charsToNat [c1, c2, c3, c4] : ℤ)
    | _ => none) none t

/-- Embedding of numismatic_rules._MINT_RE:
(?i)(?:^|[\s\-])\s*(cc|[dso])\b, leftmost match, on the lowercased title;
the consumed [\s\-] character (or ^) is represented by the previous-character
test of the scan position (the two framings find the same first group). -/
def mintSearch (t : Str) : Option Str :=
  scanPos (fun p s => do
    guard (p = none ∨ (∃ c, p = some c ∧ (isSpaceChar c ∨ c = '-')))
    let s := s.dropWhile isSpaceChar
    match dropLit ['c','c'] s with
    | some rest => do
      guard (boundaryR rest)
      pure ['c','c']
    | none =>
      match s with
      | c :: rest =>
        if (c = 'd' || c = 's' || c = 'o') && boundaryR rest then
          pure [c]
        else none
      | [] => none) none t

/-- Embedding of numismatic_rules._norm_mint restricted to the outputs of
mintSearch and the default: uppercase the matched group ("cc" → "CC",
"d"/"s"/"o" → "D"/"S"/"O"), with default "P" when no match. -/
def normMint : Option Str → Str
  | none => ['P']
  | some m => (m.map Char.toUpper)

/-- Production-window check of numismatic_rules.detect_coin_identity. -/
def yearInWindow : CoinType → ℤ → Bool
  | .morganDollar, y => 1878 ≤ y && y ≤ 1921
  | .peaceDollar, y => 1921 ≤ y && y ≤ 1935
  | .barberHalf, y => 1892 ≤ y && y ≤ 1915
  | .seatedLibertyHalf, y => 1839 ≤ y && y ≤ 1891
  | .seatedLibertyDollar, y => 1840 ≤ y && y ≤ 1873
  | .walkingLibertyHalf, y => 1916 ≤ y && y ≤ 1947

/-- Substring rejection of detect_coin_identity: proof / replica / copy
anywhere in the lowercased title. -/
def hasRejectTerm (tl : Str) : Bool :=
  containsStr ['p','r','o','o','f'] tl ||
  containsStr ['r','e','p','l','i','c','a'] tl ||
  containsStr ['c','o','p','y'] tl

/-- Embedding of numismatic_rules.detect_coin_identity (the early returns
of the source become nested matches). -/
def detect_coin_identity (title : Str) : Option (CoinType × ℤ × Str) :=
  let t := strip title
  if t = [] then none
  else
    let tLow := lower t
    match firstCoinPattern tLow with
    | none => none
    | some coin =>
      match yearSearch t with
      | none => none
      | some year =>
        let mint := normMint (mintSearch tLow)
        if hasRejectTerm tLow then none
        else if yearInWindow coin year then some (coin, year, mint)
        else none

/-- Embedding of numismatic_rules.make_benchmark_key for the identities
produced by detect_coin_identity: "coin_type|year|mint". -/
def make_benchmark_key (coin : CoinType) (year : ℤ) (mint : Str) : Str :=
  coin.label ++ ['|'] ++ (toString year).toList ++ ['|'] ++ mint

/-- The NumismaticOverride record of numismatic_rules. -/
structure NumismaticOverride where
  coinType : CoinType
  year : ℤ
  mint : Str
  displayName : Str
deriving DecidableEq, Repr

/-- Embedding of numismatic_rules.check_numismatic_override on a title. -/
def check_numismatic_override (title : Str) : Option NumismaticOverride :=
  match detect_coin_identity title with
  | none => none
  | some (coin, year, mint) =>
    some { coinType := coin, year := year, mint := mint
           displayName := coin.label ++ [' '] ++ (toString year).toList
             ++ ['-'] ++ mint }

end NumisRules

namespace Prospect

/-- The ProspectScore record of prospect_score.py. -/
structure ProspectScore where
  score : ℤ
  reasons : List String
deriving DecidableEq, Repr

/-- Embedding of prospect_score._has_any: needles are stripped and
lowercased, the title is lowercased, empty needles are skipped, matching is
by substring. -/
def hasAnyKw (title : Str) (needles : List Str) : Bool :=
  let t := lower title
  needles.any fun n =>
    let n2 := lower (strip n)
    n2 ≠ [] && containsStr n2 t

/-- Embedding of prospect_score._matches_any_regex applied to the fixed
config.PROS_DISQUALIFY_REGEX list, whose single pattern is
\b(?:replica|copy|fantasy|reproduction)\b with re.I. -/
def matchesProsDisqRegex (title : Str) : Bool :=
  let t := lower title
  NumisRules.containsWord (['r','e','p','l','i','c','a']) t ||
  NumisRules.containsWord (['c','o','p','y']) t ||
  NumisRules.containsWord (['f','a','n','t','a','s','y']) t ||
  NumisRules.containsWord (['r','e','p','r','o','d','u','c','t','i','o','n']) t

/-- Matcher for (\d{1,4})\s*m\b of prospect_score._minutes_left: a maximal
digit run of length 1..maxLen (a shorter greedy take leaves a digit next,
failing \s*suffix), then \s*, then the literal suffix, then \b. -/
def tlPattern (maxLen : ℕ) (suffix : Str) (_prev : Option Char) (s : Str) :
    Option ℤ := do
  let ds := s.takeWhile isDigitChar
  guard (1 ≤ ds.length ∧ ds.length ≤ maxLen)
  let rest := (s.dropWhile isDigitChar).dropWhile isSpaceChar
  let rest ← dropLit suffix rest
  guard (boundaryR rest)
  pure (charsToNat ds : ℤ)

/-- Embedding of the time_left fallback of prospect_score._minutes_left. -/
def parseTimeLeftMinutes (timeLeft : Str) : Option ℤ :=
  let s := lower timeLeft
  match scanPos (tlPattern 4 ['m']) none s with
  | some n => some n
  | none => scanPos (tlPattern 3 ['m','i','n']) none s

/-- Embedding of prospect_score._minutes_left; now models time.time(). -/
def minutesLeft (now : ℚ) (l : Listing) : Option ℤ :=
  match l.endTimeTs with
  | some ts =>
    let sec := ts - now
    if 0 ≤ sec then some ⌊sec / 60⌋
    else parseTimeLeftMinutes l.timeLeft
  | none => parseTimeLeftMinutes l.timeLeft

/-- Embedding of prospect_score.score_prospect. -/
def score_prospect (cfg : Config) (now : ℚ) (l : Listing)
    (fmvFloor dealerValue : Option ℚ) : ProspectScore :=
  let title := l.title
  let total := l.totalPrice
  let bids := l.bids
  match fmvFloor, dealerValue with
  | some fmv, some dealer =>
    if total ≤ 0 then { score := 0, reasons := ["missing-anchors"] }
    else
      let hardKw := cfg.PROS_HARD_DISQUALIFY_KEYWORDS ++ cfg.PROS_DISQUALIFY_KEYWORDS
      if hasAnyKw title hardKw then
        { score := 0, reasons := ["pros-hard-disqualify-keyword"] }
      else if matchesProsDisqRegex title then
        { score := 0, reasons := ["pros-hard-disqualify-regex"] }
      else
        let score0 : ℤ := 50
        let dealerMarginPct := (dealer - total) / total * 100
        let (s1, r1) : ℤ × List String :=
          if dealerMarginPct ≥ 75 then (score0 + 25, ["huge-dealer-margin"])
          else if dealerMarginPct ≥ 50 then (score0 + 18, ["dealer-margin>=50"])
          else if dealerMarginPct ≥ 35 then (score0 + 10, ["dealer-margin>=35"])
          else if dealerMarginPct ≥ 20 then (score0 + 4, ["dealer-margin>=20"])
          else (score0 - 20, ["thin-dealer-margin"])
        let fmvGapPct := (fmv - total) / total * 100
        let (s2, r2) : ℤ × List String :=
          if fmvGapPct ≥ 100 then (s1 + 10, r1 ++ ["fmv-gap>=100"])
          else if fmvGapPct ≥ 50 then (s1 + 6, r1 ++ ["fmv-gap>=50"])
          else (s1, r1)
        let (s3, r3) : ℤ × List String :=
          if bids ≤ 0 then (s2 + 4, r2 ++ ["unnoticed(0-bids)"])
          else if bids ≤ 2 then (s2 + 7, r2 ++ ["few-bids"])
          else if bids ≤ 10 then (s2 + 4, r2 ++ ["some-bids"])
          else (s2 + 1, r2 ++ ["many-bids"])
        let (s4, r4) : ℤ × List String :=
          if hasAnyKw title cfg.PROS_HYPE_KEYWORDS then
            (s3 - 18, r3 ++ ["hype-language"]) else (s3, r3)
        let (s5, r5) : ℤ × List String :=
          if hasAnyKw title cfg.PROS_UNDERDESCRIBED_KEYWORDS then
            (s4 + 12, r4 ++ ["under-described"]) else (s4, r4)
        let (s6, r6) : ℤ × List String :=
          if hasAnyKw title cfg.PROS_HIGH_GRADE_KEYWORDS then
            (s5 - 14, r5 ++ ["high-grade-signals"]) else (s5, r5)
        let (s7, r7) : ℤ × List String :=
          if hasAnyKw title cfg.PROS_HIGH_GRADE_KEYWORDS then
            let tolPct := cfg.PROS_CAT3_MISPRICE_TOL_PCT / 100
            if total ≤ fmv * (1 + max 0 tolPct) then
              let soonOk :=
                if cfg.PROS_CAT3_REQUIRE_ENDING_SOON then
                  match minutesLeft now l with
                  | none => false
                  | some mins => mins ≤ cfg.PROS_CAT3_MAX_MINUTES
                else true
              if soonOk then
                (s6 + max 0 cfg.PROS_CAT3_MISPRICE_BONUS,
                 r6 ++ ["premium-terms-priced-like-raw"])
              else (s6, r6)
            else (s6, r6)
          else (s6, r6)
        let (s8, r8) : ℤ × List String :=
          let tl := lower l.timeLeft
          if containsStr ['m',' ','l','e','f','t'] tl || containsStr ['m','i','n'] tl then
            (s7 + 3, r7 ++ ["ending-soon"])
          else (s7, r7)
        { score := max 0 (min 100 s8), reasons := r8 }
  | _, _ => { score := 0, reasons := ["missing-anchors"] }

end Prospect

namespace HitEngine

open PriceStore NumisRules Prospect

/-- Embedding of the static-floor lookup inside hit_engine._resolve_fmv.
The source queries STATIC_NUMISMATIC_DEFAULTS with the string key
"coin_type|year|mint", but that dict (an alias of
numismatic_defaults.STATIC_FLOORS) is keyed by (coin_type, year, mint,
grade) 4-tuples, so dict.get never finds the string key and always returns
None. -/
def staticDefaultLookup (_key : Str) : Option ℚ := none

/-- Embedding of hit_engine._resolve_fmv: Price-Memory EMA first (with the
observer-count label), then the static-defaults lookup, else (None, None). -/
def resolve_fmv (store : Store) (coin : CoinType) (year : ℤ) (mint : Str) :
    Option ℚ × Option Str :=
  let key := make_benchmark_key coin year mint
  let ema := lookup_ema store key
  let observers := lookup_observers store key
  match ema with
  | some e =>
    match observers with
    | some o =>
      (some e, some (['O','f','f','l','i','n','e',' ','E','M','A',' ','o','.']
        ++ (toString o).toList))
    | none => (some e, some (['O','f','f','l','i','n','e',' ','E','M','A']))
  | none =>
    match staticDefaultLookup key with
    | some v => (some v, some (['S','t','a','t','i','c',' ','D','e','f','a','u','l','t']))
    | none => (none, none)

/-- Embedding of hit_engine._coinbook_url evaluated at the canonical coin
types (the mapping dict entries; Walking Liberty Half goes through the
fallback branch, which infers half-dollars and slug walking-liberty). -/
def coinbook_url (coin : CoinType) : Str :=
  let base := ['h','t','t','p','s',':','/','/','w','w','w','.','u','s','a','c','o','i','n','b','o','o','k','.','c','o','m','/','c','o','i','n','s','/']
  match coin with
  | .morganDollar => base ++ (("dollars/morgan/").toList)
  | .peaceDollar => base ++ (("dollars/peace/").toList)
  | .seatedLibertyDollar => base ++ (("dollars/seated-liberty/").toList)
  | .barberHalf => base ++ (("half-dollars/barber/").toList)
  | .seatedLibertyHalf => base ++ (("half-dollars/seated-liberty/").toList)
  | .walkingLibertyHalf => base ++ (("half-dollars/walking-liberty/").toList)

/-- The Evaluated record of hit_engine (the dataclass together with the
numismatic overlay entries of the assembled silver_calc dict). -/
structure Evaluated where
  listing : Listing
  silverCalc : SilverMath.SilverCalc
  isHit : Bool
  numisOverride : Option Str
  isProspect : Bool
  fmvFloor : Option ℚ
  fmvSource : Option Str
  dealerValue : Option ℚ
  dealerProfit : Option ℚ
  dealerMarginPct : Option ℚ
  dealerRecMaxTotal : Option ℚ
  dealerRecMaxItem : Option ℚ
  dealerProfitAtRecMax : Option ℚ
  dealerMarginAtRecMax : Option ℚ
  coinbookUrl : Option Str

/-- Embedding of the per-listing body of hit_engine.evaluate_listings. -/
def evaluate_one (cfg : Config) (store : Store) (now : ℚ) (l : Listing) :
    Evaluated :=
  let silver := SilverMath.calc_silver cfg l
  let override := check_numismatic_override l.title
  let resolved : Option (ℚ × Option Str) :=
    match override with
    | none => none
    | some ov =>
      match resolve_fmv store ov.coinType ov.year ov.mint with
      | (some fmv, src) => some (fmv, src)
      | (none, _) => none
  let fmvFloor : Option ℚ := resolved.map (·.1)
  let fmvSource : Option Str := match resolved with
    | some (_, src) => src
    | none => none
  let dealerValue : Option ℚ :=
    resolved.map fun (fmv, _) => fmv * (cfg.NUMISMATIC_PAYOUT_PCT / 100)
  let dealerProfit : Option ℚ := dealerValue.map (· - l.totalPrice)
  let dealerMarginPct : Option ℚ :=
    match dealerProfit with
    | some dp => if l.totalPrice > 0 then some (dp / l.totalPrice * 100) else none
    | none => none
  let m := max 0 (cfg.MIN_MARGIN_PCT / 100)
  let dealerRecMaxTotal : Option ℚ :=
    dealerValue.map fun dv => pround 2 (dv / (1 + m))
  let dealerRecMaxItem : Option ℚ :=
    dealerRecMaxTotal.map fun t => pround 2 (max 0 (t - l.shipping))
  let dealerProfitAtRec : Option ℚ :=
    match dealerValue, dealerRecMaxTotal with
    | some dv, some t => some (pround 2 (dv - t))
    | _, _ => none
  let dealerMarginAtRec : Option ℚ :=
    match dealerProfitAtRec, dealerRecMaxTotal with
    | some dp, some t => if t ≠ 0 then some (dp / t * 100) else none
    | _, _ => none
  let coinbookUrl : Option Str := override.map fun ov => coinbook_url ov.coinType
  let recMaxTotal := silver.recMaxTotal
  let isHit := decide (l.totalPrice ≤ recMaxTotal)
  let isProspect :=
    match dealerValue, fmvFloor with
    | some dv, some fmv =>
      if l.totalPrice > 0 then
        let total := l.totalPrice
        if cfg.PROS_MAX_TOTAL = none ∨ (∃ cap, cfg.PROS_MAX_TOTAL = some cap ∧ total ≤ cap) then
          let dm := (match dealerMarginPct with
            | some d => d
            | none => 0)
          let ps := score_prospect cfg now l (some fmv) (some dv)
          let cat3Override := ps.reasons.contains ("premium-terms-priced-like-raw")
          let baseOk := dm ≥ cfg.PROS_MIN_DEALER_MARGIN_PCT
          decide ((baseOk ∨ cat3Override = true) ∧ ps.score ≥ cfg.PROS_MIN_SCORE)
        else false
      else false
    | _, _ => false
  { listing := l
    silverCalc := silver
    isHit := isHit
    numisOverride := override.map (·.displayName)
    isProspect := isProspect
    fmvFloor := fmvFloor
    fmvSource := fmvSource
    dealerValue := dealerValue
    dealerProfit := dealerProfit
    dealerMarginPct := dealerMarginPct
    dealerRecMaxTotal := dealerRecMaxTotal
    dealerRecMaxItem := dealerRecMaxItem
    dealerProfitAtRecMax := dealerProfitAtRec
    dealerMarginAtRecMax := dealerMarginAtRec
    coinbookUrl := coinbookUrl }

/-- The sort key of hit_engine.evaluate_listings:
getattr(e.listing, "end_time_ts", 10**18). -/
def sortKey (e : Evaluated) : ℚ :=
  match e.listing.endTimeTs with
  | some ts => ts
  | none => 10 ^ 18

/-- Embedding of hit_engine.evaluate_listings (the unused max_time_hours
parameter of the source is omitted): evaluate every listing, then sort
ascending by the end-time key with the large sentinel for a missing end
time.  Python list.sort is a stable ascending sort, and all stable sorts of
a list under a total preorder agree, so the stable insertion sort models
it. -/
def evaluate_listings (cfg : Config) (store : Store) (now : ℚ)
    (listings : List Listing) : List Evaluated :=
  (listings.map (evaluate_one cfg store now)).insertionSort
    (fun a b => sortKey a ≤ sortKey b)

/-- Embedding of hit_engine.select_hits: melt HITs plus prospect entries
(the dict fallback branch of the source re-reads the same is_prospect flag
that the dataclass carries, so the two tests coincide in this model). -/
def select_hits (evaluated : List Evaluated) : List Evaluated :=
  evaluated.filter fun e => e.isHit || e.isProspect

end HitEngine

namespace Monitor

open PriceStore NumisRules SilverMath

/-- Embedding of silver_monitor._HARD_DISQUALIFY_RE:
(?i)\b(?:holed|hole|pierced|drilled|copy|replica|clad|plated)\b. -/
def hardDisqualifyMatch (title : Str) : Bool :=
  let t := lower title
  ([ ("holed"), ("hole"), ("pierced"), ("drilled"), ("copy"), ("replica"),
     ("clad"), ("plated") ].map String.toList).any
    fun w => containsWord w t

/-- The accessory guard of the run_once capture loop: obvious non-coin
accessory phrases, matched as substrings of the lowercased title. -/
def accessoryTermMatch (title : Str) : Bool :=
  let t := lower title
  ([ ("no coins"), ("coin book"), ("folder"), ("album"), ("money clip"),
     ("keychain"), ("cutout"), ("pendant"), ("necklace") ].map String.toList).any
    fun w => containsStr w t

/-- Pattern \b\d+\s*x\b of PRICE_CAPTURE_DISQUALIFY_REGEX (case-sensitive,
matched against the original title). -/
def disqRegexNumX (prev : Option Char) (s : Str) : Option Unit := do
  guard (boundaryL prev)
  let ds := s.takeWhile isDigitChar
  guard (ds ≠ [])
  let rest := (s.dropWhile isDigitChar).dropWhile isSpaceChar
  let rest ← dropLit ['x'] rest
  guard (boundaryR rest)
  pure ()

/-- Pattern \b\d+\s*(?:coin|coins|pc|pcs|piece|pieces)\b. -/
def disqRegexNumUnit (prev : Option Char) (s : Str) : Option Unit := do
  guard (boundaryL prev)
  let ds := s.takeWhile isDigitChar
  guard (ds ≠ [])
  let rest := (s.dropWhile isDigitChar).dropWhile isSpaceChar
  let ok := ([ ("coin"), ("coins"), ("pc"), ("pcs"), ("piece"),
               ("pieces") ].map String.toList).any fun w =>
    match dropLit w rest with
    | some r => boundaryR r
    | none => false
  guard ok
  pure ()

/-- Pattern \(\s*\d+\s*(?:coin|coins|pc|pcs|piece|pieces)\s*(?:lot)?\s*\). -/
def disqRegexParenLot (_prev : Option Char) (s : Str) : Option Unit := do
  let s ← dropLit ['('] s
  let s := s.dropWhile isSpaceChar
  let ds := s.takeWhile isDigitChar
  guard (ds ≠ [])
  let s := (s.dropWhile isDigitChar).dropWhile isSpaceChar
  let tailOk : Str → Bool := fun r =>
    let r1 := r.dropWhile isSpaceChar
    (match dropLit ['l','o','t'] r1 with
     | some r2 => ((r2.dropWhile isSpaceChar).take 1) = [')']
     | none => false) || (r1.take 1) = [')']
  guard (([ ("coin"), ("coins"), ("pc"), ("pcs"), ("piece"),
            ("pieces") ].map String.toList).any fun w =>
    match dropLit w s with
    | some r => tailOk r
    | none => false)
  pure ()

/-- Pattern \blot\s*(?:of\s*)?\d+\b. -/
def disqRegexLotN (prev : Option Char) (s : Str) : Option Unit := do
  guard (boundaryL prev)
  let s ← dropLit ['l','o','t'] s
  let s1 := s.dropWhile isSpaceChar
  let tryDigits : Str → Bool := fun r =>
    let ds := r.takeWhile isDigitChar
    ds ≠ [] && boundaryR (r.dropWhile isDigitChar)
  let withOf : Bool :=
    match dropLit ['o','f'] s1 with
    | some r => tryDigits (r.dropWhile isSpaceChar)
    | none => false
  guard (withOf || tryDigits s1)
  pure ()

/-- Patterns \bms\s*\d{2}\b and \bpf\s*\d{2}\b (w is ms or pf). -/
def disqRegexGradeNN (w : Str) (prev : Option Char) (s : Str) : Option Unit := do
  guard (boundaryL prev)
  let s ← dropLit w s
  let s := s.dropWhile isSpaceChar
  match s with
  | c1 :: c2 :: rest =>
    guard (isDigitChar c1 && isDigitChar c2)
    guard (boundaryR rest)
    pure ()
  | _ => none

/-- Embedding of the regex half of silver_monitor._capture_disqualified:
the fixed config.PRICE_CAPTURE_DISQUALIFY_REGEX patterns, searched in the
original (uncased) title. -/
def captureDisqRegexMatch (title : Str) : Bool :=
  (scanPos disqRegexNumX none title).isSome ||
  (scanPos disqRegexNumUnit none title).isSome ||
  (scanPos disqRegexParenLot none title).isSome ||
  (scanPos disqRegexLotN none title).isSome ||
  (scanPos (disqRegexGradeNN ['m','s']) none title).isSome ||
  (scanPos (disqRegexGradeNN ['p','f']) none title).isSome

/-- Embedding of silver_monitor._capture_disqualified: keyword substrings
on the lowercased title, then the fixed regex list on the original title. -/
def capture_disqualified (cfg : Config) (title : Str) : Bool :=
  let t := lower title
  (cfg.PRICE_CAPTURE_DISQUALIFY_KEYWORDS.any fun kw =>
    kw ≠ [] && containsStr (lower kw) t) ||
  captureDisqRegexMatch title

/-- Embedding of the per-listing EMA-capture path of silver_monitor.run_once
combined with price_store.update_price: the sequence of eligibility gates of
the capture loop, then the store update.  A single listing is modelled (the
best-candidate competition of the per-scan updates dict arbitrates between
several listings of one scan and is not involved in the claims); now models
time.time() in the capture window gate and nowTs the integer now_ts() stored
in the entry. -/
def capture_listing (cfg : Config) (store : Store) (now : ℚ) (nowTs : ℤ)
    (l : Listing) : Bool × Store :=
  if hardDisqualifyMatch l.title then (false, store)
  else if accessoryTermMatch l.title then (false, store)
  else if capture_disqualified cfg l.title then (false, store)
  else if extract_quantity_from_title l.title ≠ 1 then (false, store)
  else if (match cfg.PRICE_CAPTURE_MAX_MINUTES with
    | none => false
    | some capMin =>
      match l.endTimeTs with
      | none => true
      | some endTs => endTs - now < 0 ∨ capMin * 60 < endTs - now) then
    (false, store)
  else if cfg.PRICE_CAPTURE_ONLY_IF_BIDS ∧ l.bids < 1 then (false, store)
  else
    match detect_coin_identity l.title with
    | none => (false, store)
    | some (coin, year, mint) =>
      update_price cfg store (make_benchmark_key coin year mint)
        (some l.itemPrice) l.bids nowTs

end Monitor

/-- The active configuration values of config.py.  PROS_MAX_TOTAL is
commented out in config.py, so the getattr default 150.0 of hit_engine
applies; PROS_HARD_DISQUALIFY_KEYWORDS is not defined in config.py, so the
getattr default [] of prospect_score applies; PROS_MODE is "aggressive",
selecting PROS_MIN_DEALER_MARGIN_PCT = 5.0 and PROS_MIN_SCORE = 60. -/
def defaultConfig : Config :=
  { SPOT_PRICE := 62
    PAWN_PAYOUT_PCT := 82
    NUMISMATIC_PAYOUT_PCT := 60
    BID_OFFSET := 0
    MIN_MARGIN_PCT := 12
    PRICE_CAPTURE_ONLY_IF_BIDS := true
    PRICE_CAPTURE_BUMP_PCT := 8 / 100
    EMA_ALPHA := 40 / 100
    PRICE_CAPTURE_MAX_MINUTES := some 30
    PROS_MAX_TOTAL := some 150
    PROS_MIN_DEALER_MARGIN_PCT := 5
    PROS_MIN_SCORE := 60
    PROS_CAT3_MISPRICE_TOL_PCT := 5
    PROS_CAT3_MISPRICE_BONUS := 35
    PROS_CAT3_REQUIRE_ENDING_SOON := true
    PROS_CAT3_MAX_MINUTES := 30
    PROS_HARD_DISQUALIFY_KEYWORDS := []
    PROS_DISQUALIFY_KEYWORDS :=
      ([ ("holed"), ("hole"), ("drilled"), ("pierced"), ("plugged"),
         ("bent"), ("damaged"), ("broken"), ("scratched"), ("details"),
         ("harshly cleaned"), ("cleaned"),
         ("replica"), ("copy"), ("fantasy"), ("reproduction"),
         ("plated"), ("clad"), ("silver plate"), ("silver plated"),
         ("silver tone"), ("silver toned"),
         ("gold tone"), ("gold toned") ].map String.toList)
    PROS_HYPE_KEYWORDS :=
      ([ ("monster"), ("wow"), ("elite"), ("rare!!"), ("superb"), ("amazing"),
         ("beautiful"), ("blazing"), ("choice"), ("gem"), ("premium"),
         ("rare"), ("key date"),
         ("clearance"), ("start"), ("starts"), ("start$"), ("start $"),
         ("nr"), ("no reserve"),
         ("ms"), ("pf"), ("proof"), ("dmpl"), ("pl"), ("deep mirror"),
         ("bu"), ("unc"), ("uncirculated"), ("brilliant uncirculated"),
         ("pcgs"), ("ngc"), ("anacs"), ("icg"), ("cac"), ("slab"),
         ("graded"), ("certified") ].map String.toList)
    PROS_UNDERDESCRIBED_KEYWORDS :=
      ([ ("estate"), ("old collection"), ("attic"), ("found"), ("as is"),
         ("no reserve"), ("better date"), ("scarce date") ].map String.toList)
    PROS_HIGH_GRADE_KEYWORDS :=
      ([ ("pcgs"), ("ngc"), ("anacs"), ("icg"), ("cac"),
         ("ms"), ("ms-"), ("ms60"), ("ms61"), ("ms62"), ("ms63"), ("ms64"),
         ("ms65"), ("ms66"), ("ms67"), ("ms68"), ("ms69"), ("ms70"),
         ("au"), ("a.u."), ("about uncirculated"), ("unc"), ("uncirculated"),
         ("bu"), ("brilliant uncirculated"),
         ("proof"), ("pr"), ("pf"), ("deep cameo"), ("dcam"),
         ("ultra cameo"), ("ucam"), ("cameo"),
         ("pl"), ("prooflike"), ("dmpl"), ("deep mirror prooflike"),
         ("gem"), ("choice"), ("blast white"), ("monster toning"),
         ("full bands"), ("full bell lines") ].map String.toList)
    PRICE_CAPTURE_DISQUALIFY_KEYWORDS :=
      ([ ("lot"), ("lots"), ("group"), ("collection"), ("estate"), ("hoard"),
         ("mixed"), ("bundle"), ("set"), ("roll"), ("bag"), ("coins"),
         ("bu"), ("brilliant uncirculated"), ("unc"), ("uncirculated"),
         ("au"), ("xf"), ("ef"), ("ms"), ("choice"), ("gem"),
         ("pl"), ("dmpl"), ("proof"),
         ("pcgs"), ("ngc"), ("anacs"), ("icg"), ("slab"), ("graded"),
         ("certified"), ("holder"),
         ("no coins"), ("coin book"), ("folder"), ("album"),
         ("money clip"), ("keychain"), ("cutout"), ("pendant"),
         ("necklace") ].map String.toList) }

namespace PriceStore

/-! Embedding of the persistence half of price_store.py.  The file content
is a list of characters.  Python floats are exact decimal rationals in this
model; the prices written by the store are nonnegative 2-decimal values
(update_ema_entry rounds them), and json.dumps renders such a float by its
shortest decimal form (63.0, 10.8, 10.85).  load_store is modelled by a
parser for the JSON subset that save_store emits (json.load accepts more
general JSON and skips entries failing numeric coercion; only saved output
is ever parsed back in the roundtrip property). -/

/-- Decimal digits of a natural number (the digits json.dumps emits). -/
def natToChars (n : ℕ) : List Char :=
  if _h : n < 10 then [Nat.digitChar n]
  else natToChars (n / 10) ++ [Nat.digitChar (n % 10)]
decreasing_by exact Nat.div_lt_self (by omega) (by omega)

/-- Rendering of an int by json.dumps. -/
def renderInt (z : ℤ) : Str :=
  if z < 0 then '-' :: natToChars (-z).toNat else natToChars z.toNat

/-- Shortest-decimal rendering of the float n/100 (json.dumps via repr):
63.0 when integral, 10.8 when a tenth, else 10.85. -/
def renderFloat (n : ℕ) : Str :=
  if n % 100 = 0 then natToChars (n / 100) ++ ['.', '0']
  else if n % 10 = 0 then
    natToChars (n / 100) ++ ['.', Nat.digitChar ((n / 10) % 10)]
  else
    natToChars (n / 100) ++ ['.', Nat.digitChar ((n / 10) % 10), Nat.digitChar (n % 10)]

/-- The number of cents of a nonnegative 2-decimal rational, if it is one.
Stored prices always are; the fallback keeps rendering total. -/
def centsOf (q : ℚ) : Option ℕ :=
  if 0 ≤ q ∧ (q * 100).den = 1 then some (q * 100).num.toNat else none

/-- Rendering of a stored price float. -/
def renderQ2 (q : ℚ) : Str :=
  match centsOf q with
  | some n => renderFloat n
  | none => renderFloat 0

/-- json.dumps string escaping (ensure_ascii=False): quote, backslash and
control characters are escaped, everything else is written as-is. -/
def escapeChar (c : Char) : Str :=
  if c = '"' then ['\\', '"']
  else if c = '\\' then ['\\', '\\']
  else if c = '\n' then ['\\', 'n']
  else if c = '\t' then ['\\', 't']
  else if c = '\x0d' then ['\\', 'r']
  else if c = '\x08' then ['\\', 'b']
  else if c = '\x0c' then ['\\', 'f']
  else if c.toNat < 32 then
    ['\\', 'u', '0', '0', Nat.digitChar (c.toNat / 16), Nat.digitChar (c.toNat % 16)]
  else [c]

/-- json.dumps of a key string. -/
def renderKey (k : Str) : Str :=
  '"' :: k.flatMap escapeChar ++ ['"']

/-- json.dumps of a stored value list (default dumps separators). -/
def renderEntryVals (e : Entry) : Str :=
  ['['] ++ renderQ2 e.emaPrice ++ [',', ' '] ++ renderInt e.samples
  ++ [',', ' '] ++ renderQ2 e.lastTotalPrice ++ [',', ' '] ++ renderInt e.lastUpdated
  ++ [',', ' '] ++ renderInt e.observersTotal ++ [']']

/-- One store line of save_store (without the trailing comma). -/
def renderLine (k : Str) (e : Entry) : Str :=
  [' ', ' '] ++ renderKey k ++ [':', ' '] ++ renderEntryVals e

/-- The store lines with the comma on every line but the last. -/
def renderLines : Store → List Str
  | [] => []
  | [(k, e)] => [renderLine k e]
  | (k, e) :: rest => (renderLine k e ++ [',']) :: renderLines rest

/-- Lexicographic key order by code point (Python str comparison). -/
def keyLe : Str → Str → Bool
  | [], _ => true
  | _ :: _, [] => false
  | a :: as, b :: bs => if a = b then keyLe as bs else decide (a < b)

/-- Insertion into a key-sorted store. -/
def insertSorted (x : Str × Entry) : Store → Store
  | [] => [x]
  | y :: ys => if keyLe x.1 y.1 then x :: y :: ys else y :: insertSorted x ys

/-- Model of sorted(store.keys()): key-sorted enumeration of the store. -/
def sortStore : Store → Store
  | [] => []
  | x :: xs => insertSorted x (sortStore xs)

/-- Terminate every line with a newline (each f.write(line + newline)). -/
def joinLines (ls : List Str) : Str :=
  ls.flatMap (· ++ ['\n'])

/-- Embedding of price_store.save_store: the file content it writes. -/
def save_store (store : Store) : Str :=
  joinLines ([['{']] ++ renderLines (sortStore store) ++ [['}']])

/-- Split the file into lines at newline characters. -/
def splitOnNl : Str → List Str
  | [] => [[]]
  | c :: cs =>
    match splitOnNl cs with
    | s :: rest => if c = '\n' then [] :: s :: rest else (c :: s) :: rest
    | [] => [[c]]

/-- Parse a JSON number of the saved format (digits, optional fraction);
returns the value and the remainder. -/
def parseNumber (s : Str) : Option (ℚ × Str) :=
  let ds := s.takeWhile isDigitChar
  if ds = [] then none
  else
    let rest := s.dropWhile isDigitChar
    match rest with
    | '.' :: r2 =>
      let fs := r2.takeWhile isDigitChar
      if fs = [] then none
      else some ((charsToNat ds : ℚ) + (charsToNat fs : ℚ) / 10 ^ fs.length,
        r2.dropWhile isDigitChar)
    | _ => some ((charsToNat ds : ℚ), rest)

/-- Model of Python int() applied to a parsed JSON number (truncation
toward zero). -/
def pyint (q : ℚ) : ℤ :=
  if 0 ≤ q then ⌊q⌋ else -⌊-q⌋

/-- Parse a stored 5-element value list and apply the float/int coercions
of load_store. -/
def parseEntryVals (s : Str) : Option (Entry × Str) := do
  let s ← dropLit ['['] s
  let (v0, s) ← parseNumber s
  let s ← dropLit [',', ' '] s
  let (v1, s) ← parseNumber s
  let s ← dropLit [',', ' '] s
  let (v2, s) ← parseNumber s
  let s ← dropLit [',', ' '] s
  let (v3, s) ← parseNumber s
  let s ← dropLit [',', ' '] s
  let (v4, s) ← parseNumber s
  let s ← dropLit [']'] s
  pure ({ emaPrice := v0
          samples := pyint v1
          lastTotalPrice := v2
          lastUpdated := pyint v3
          observersTotal := pyint v4 }, s)

/-- Parse one store line (the saved keys contain no escape sequences, so
the key is read up to the closing quote). -/
def parseEntryLine (withComma : Bool) (line : Str) : Option (Str × Entry) := do
  let s ← dropLit [' ', ' ', '"'] line
  let k := s.takeWhile (fun c => c ≠ '"')
  let s := s.dropWhile (fun c => c ≠ '"')
  let s ← dropLit ['"', ':', ' '] s
  let (e, s) ← parseEntryVals s
  if withComma then do
    let r ← dropLit [','] s
    guard (r = [])
    pure (k, e)
  else do
    guard (s = [])
    pure (k, e)

/-- Parse the store lines (comma on every line but the last). -/
def parseEntryLines : List Str → Option Store
  | [] => some []
  | [l] => do
    let kv ← parseEntryLine false l
    pure [kv]
  | l :: ls => do
    let kv ← parseEntryLine true l
    let rest ← parseEntryLines ls
    pure (kv :: rest)

/-- Embedding of price_store.load_store on a file content: parse the saved
format, failing open to the empty store. -/
def load_store (file : Str) : Store :=
  match splitOnNl file with
  | first :: rest =>
    if first = ['{'] then
      match rest.reverse with
      | lastL :: braceL :: midRev =>
        if lastL = [] ∧ braceL = ['}'] then
          match parseEntryLines midRev.reverse with
          | some st => st
          | none => []
        else []
      | _ => []
    else []
  | [] => []

end PriceStore

/-! Concrete objects used by scenario, witness and counterexample
theorems. -/

/-- Scenario A configuration: spot 30, pawn payout 80, other values from
config.py. -/
def cfgScenA : Config :=
  { defaultConfig with SPOT_PRICE := 30, PAWN_PAYOUT_PCT := 80 }

/-- Scenario A listing. -/
def lstScenA : Listing :=
  { title := ("1921 Walking Liberty Half, AU, no bids").toList
    itemPrice := 35
    shipping := 5
    totalPrice := 40
    bids := 0
    timeLeft := [] }

/-- Counterexample configuration for the melt formulas: min margin 0. -/
def cfgZeroMargin : Config :=
  { cfgScenA with MIN_MARGIN_PCT := 0 }

/-- Counterexample listing: scenario A with shipping 0.004. -/
def lstTinyShip : Listing :=
  { lstScenA with shipping := 1 / 250 }

/-- A plain witness listing with preset quantity and weight. -/
def lstPlain : Listing :=
  { title := ("half dollar").toList
    itemPrice := 10
    shipping := 0
    totalPrice := 10
    bids := 1
    timeLeft := []
    quantity := 1
    ozPerCoin := 1 }

/-- The Scenario B benchmark key. -/
def keyB : Str := ("Morgan Dollar|1921|P").toList

/-- A fixed write timestamp for the price-store scenarios. -/
def nowB : ℤ := 1765618492

/-- A store holding a prior EMA entry under the Scenario B key. -/
def storePrior : PriceStore.Store :=
  [(keyB, { emaPrice := 54, samples := 1, lastTotalPrice := 54,
            lastUpdated := 0, observersTotal := 2 })]

/-- The eligible update_price behaviour: bump, then first write or EMA
blend, all stored prices rounded to 2 decimals. -/
def UpdateSpec (cfg : Config) (store : PriceStore.Store) (key : Str)
    (total : ℚ) (bids now : ℤ) : Prop :=
  (PriceStore.update_price cfg store key (some total) bids now).1 = true ∧
  (PriceStore.update_price cfg store key (some total) bids now).2 =
    store.insert key
      (match store.lookup key with
       | none =>
         { emaPrice := pround 2 (total * (1 + cfg.PRICE_CAPTURE_BUMP_PCT))
           samples := 1
           lastTotalPrice := pround 2 (total * (1 + cfg.PRICE_CAPTURE_BUMP_PCT))
           lastUpdated := now
           observersTotal := bids }
       | some e =>
         { emaPrice := pround 2 (cfg.EMA_ALPHA * (total * (1 + cfg.PRICE_CAPTURE_BUMP_PCT))
             + (1 - cfg.EMA_ALPHA) * e.emaPrice)
           samples := e.samples + 1
           lastTotalPrice := pround 2 (total * (1 + cfg.PRICE_CAPTURE_BUMP_PCT))
           lastUpdated := now
           observersTotal := e.observersTotal + bids })

/-- A multi-coin listing (extracted quantity 5). -/
def lstLot : Listing :=
  { title := ("lot of 5 morgan dollars").toList
    itemPrice := 40
    shipping := 0
    totalPrice := 40
    bids := 2
    timeLeft := [] }

/-- A Morgan Dollar listing used by the prospect scenarios. -/
def lstMorgan : Listing :=
  { title := ("1921 Morgan Dollar VG").toList
    itemPrice := 50
    shipping := 0
    totalPrice := 50
    bids := 2
    timeLeft := []
    endTimeTs := some 600 }

/-- A configuration that differs from the default only in numismatic
inputs (dealer payout, prospect thresholds and keyword lists). -/
def cfgNumisVar : Config :=
  { defaultConfig with
      NUMISMATIC_PAYOUT_PCT := 95
      PROS_MAX_TOTAL := none
      PROS_MIN_DEALER_MARGIN_PCT := 0
      PROS_MIN_SCORE := 0
      PROS_CAT3_MISPRICE_BONUS := 50
      PROS_HIGH_GRADE_KEYWORDS := []
      PROS_DISQUALIFY_KEYWORDS := [] }

/-- A store carrying an EMA entry for the Scenario C key. -/
def storeMorganEma : PriceStore.Store :=
  [(keyB, { emaPrice := 120, samples := 3, lastTotalPrice := 118,
            lastUpdated := 0, observersTotal := 7 })]

/-- Scenario D listings: end times 300, 100, 200 and one missing. -/
def lstD1 : Listing :=
  { title := ("half dollar a").toList, itemPrice := 10, shipping := 0,
    totalPrice := 10, bids := 0, timeLeft := [], endTimeTs := some 300 }

/-- Scenario D listing with end time 100. -/
def lstD2 : Listing :=
  { title := ("half dollar b").toList, itemPrice := 10, shipping := 0,
    totalPrice := 10, bids := 0, timeLeft := [], endTimeTs := some 100 }

/-- Scenario D listing with end time 200. -/
def lstD3 : Listing :=
  { title := ("half dollar c").toList, itemPrice := 10, shipping := 0,
    totalPrice := 10, bids := 0, timeLeft := [], endTimeTs := some 200 }

/-- Scenario D listing with a missing end time. -/
def lstD4 : Listing :=
  { title := ("half dollar d").toList, itemPrice := 10, shipping := 0,
    totalPrice := 10, bids := 0, timeLeft := [] }

/-- The melt formulas of calc_silver, stated field by field (properties of
listings whose quantity and weight are already populated). -/
def MeltFormulas (cfg : Config) (l : Listing) : Prop :=
  (SilverMath.calc_silver cfg l).meltValue
      = (l.quantity : ℚ) * l.ozPerCoin * cfg.SPOT_PRICE ∧
  (SilverMath.calc_silver cfg l).meltPayout
      = (SilverMath.calc_silver cfg l).meltValue * (cfg.PAWN_PAYOUT_PCT / 100) ∧
  (SilverMath.calc_silver cfg l).profit
      = (SilverMath.calc_silver cfg l).meltPayout - (l.totalPrice + cfg.BID_OFFSET) ∧
  (SilverMath.calc_silver cfg l).marginPct
      = (if l.totalPrice + cfg.BID_OFFSET ≤ 0 then 0
         else (SilverMath.calc_silver cfg l).profit / (l.totalPrice + cfg.BID_OFFSET) * 100) ∧
  (SilverMath.calc_silver cfg l).recMaxTotal
      = pround 2 ((SilverMath.calc_silver cfg l).meltPayout
          / (1 + max 0 (cfg.MIN_MARGIN_PCT / 100))) ∧
  (cfg.MIN_MARGIN_PCT ≤ 0 →
    (SilverMath.calc_silver cfg l).recMaxTotal
      = pround 2 (SilverMath.calc_silver cfg l).meltPayout) ∧
  (SilverMath.calc_silver cfg l).recMaxItem
      = pround 2 (max 0 ((SilverMath.calc_silver cfg l).recMaxTotal - l.shipping))

/-- Characters allowed in a key that json.dumps writes unescaped. -/
def SafeKeyChar (c : Char) : Prop :=
  c ≠ '"' ∧ c ≠ '\\' ∧ 32 ≤ c.toNat

/-- A key that json.dumps writes without escape sequences. -/
def SafeKey (k : Str) : Prop := ∀ c ∈ k, SafeKeyChar c

/-- A store entry as the store itself writes it: nonnegative 2-decimal
prices and nonnegative integers. -/
def EntryCanon (e : PriceStore.Entry) : Prop :=
  (∃ n : ℕ, e.emaPrice = (n : ℚ) / 100) ∧
  0 ≤ e.samples ∧
  (∃ n : ℕ, e.lastTotalPrice = (n : ℚ) / 100) ∧
  0 ≤ e.lastUpdated ∧
  0 ≤ e.observersTotal

/-- A canonical store value: keys strictly sorted (the canonical
enumeration of a dict) and every binding safe and canonical. -/
def StoreCanon (s : PriceStore.Store) : Prop :=
  s.Pairwise (fun a b => PriceStore.keyLe a.1 b.1 = true) ∧
  ∀ kv ∈ s, SafeKey kv.1 ∧ EntryCanon kv.2

/-- A face-value-language listing: no gate of the capture path rejects it.
End time 100 at evaluation time 0 lies inside the 30-minute capture
window. -/
def lstFaceValue : Listing :=
  { title := ("1921 Morgan Dollar $5 face value").toList
    itemPrice := 20
    shipping := 5
    totalPrice := 25
    bids := 2
    timeLeft := []
    endTimeTs := some 100 }

/-- A concrete two-entry canonical store for the persistence witness. -/
def storeC7 : PriceStore.Store :=
  [(("Morgan Dollar|1921|P").toList,
    { emaPrice := 54, samples := 1, lastTotalPrice := 54,
      lastUpdated := 1700000000, observersTotal := 2 }),
   (("Peace Dollar|1922|P").toList,
    { emaPrice := 12, samples := 3, lastTotalPrice := 30,
      lastUpdated := 1700000500, observersTotal := 7 })]

/-! Theorems. -/

/-- pround is idempotent: a value already rounded to n decimals rounds to
itself. -/
theorem pround_idem (n : ℕ) (q : ℚ) : pround n (pround n q) = pround n q := by
  unfold pround
  rw [div_mul_cancel₀]
  · rw [round_intCast]
  · positivity

/-- Claim C1 (amended): for every listing with populated quantity and
per-coin weight, the melt calculation returns melt_value, melt_payout,
profit and margin_pct exactly as the formulas state (unrounded), while
rec_max_total and rec_max_item are the corresponding formulas rounded to 2
decimals (equal to pround 2 melt_payout when min_margin_pct ≤ 0). -/
theorem C1_melt_formulas (cfg : Config) (l : Listing)
    (hq : 1 ≤ l.quantity) (hoz : 0 < l.ozPerCoin) : MeltFormulas cfg l := by
  have h1 : ¬(l.quantity = 0 ∨ l.quantity < 1) := by omega
  have h2 : ¬(l.ozPerCoin = 0 ∨ l.ozPerCoin ≤ 0) := by
    push_neg
    exact ⟨ne_of_gt hoz, hoz⟩
  have henr : SilverMath.enrich_listing_silver_fields l = l := by
    unfold SilverMath.enrich_listing_silver_fields
    rw [if_neg h1, if_neg h2]
  have hq0 : ¬(l.quantity = 0) := by omega
  unfold MeltFormulas
  simp only [SilverMath.calc_silver, henr, if_neg hq0]
  simp only [SilverMath.compute_melt_value, SilverMath.compute_payout,
    SilverMath.compute_profit, SilverMath.compute_margin_pct,
    SilverMath.compute_recommended_max_total,
    SilverMath.compute_recommended_max_item_only]
  refine ⟨trivial, trivial, trivial, trivial, ?_, ?_, trivial⟩
  · rcases le_or_lt (max 0 (cfg.MIN_MARGIN_PCT / 100)) 0 with hm | hm
    · have hmax : max 0 (cfg.MIN_MARGIN_PCT / 100) = 0 :=
        le_antisymm hm (le_max_left _ _)
      rw [if_pos hm, hmax]
      norm_num
    · rw [if_neg (not_le.mpr hm)]
  · intro hmm
    have hdiv : cfg.MIN_MARGIN_PCT / 100 ≤ 0 := by
      apply div_nonpos_of_nonpos_of_nonneg hmm
      norm_num
    have hmax : max 0 (cfg.MIN_MARGIN_PCT / 100) = 0 := max_eq_left hdiv
    rw [hmax]
    norm_num

/-- Witness for C1: the melt formulas hold of a concrete listing. -/
theorem C1_witness :
    1 ≤ lstPlain.quantity ∧ 0 < lstPlain.ozPerCoin ∧
      MeltFormulas defaultConfig lstPlain :=
  ⟨by decide, one_pos, C1_melt_formulas defaultConfig lstPlain (by decide) one_pos⟩

/-- Counterexample for C1 as stated: with min_margin_pct = 0 the code does
not return rec_max_total = melt_payout but its 2-decimal rounding (8.68
versus 8.68056), and rec_max_item is likewise rounded (8.68 versus the
claimed 8.676 at shipping 0.004). -/
theorem C1_counterexample :
    (SilverMath.calc_silver cfgZeroMargin lstTinyShip).recMaxTotal
        ≠ (SilverMath.calc_silver cfgZeroMargin lstTinyShip).meltPayout ∧
    (SilverMath.calc_silver cfgZeroMargin lstTinyShip).recMaxItem
        ≠ max 0 ((SilverMath.calc_silver cfgZeroMargin lstTinyShip).recMaxTotal
            - lstTinyShip.shipping) := by
  have henr : SilverMath.enrich_listing_silver_fields lstTinyShip
      = { lstTinyShip with ozPerCoin := SilverMath.ASW_HALF_DOLLAR } := by rfl
  constructor
  · simp only [SilverMath.calc_silver, henr]
    norm_num [lstTinyShip, lstScenA, cfgZeroMargin, cfgScenA, defaultConfig,
      SilverMath.compute_melt_value, SilverMath.compute_payout,
      SilverMath.compute_recommended_max_total, SilverMath.ASW_HALF_DOLLAR,
      pround, round_eq]
  · simp only [SilverMath.calc_silver, henr]
    norm_num [lstTinyShip, lstScenA, cfgZeroMargin, cfgScenA, defaultConfig,
      SilverMath.compute_melt_value, SilverMath.compute_payout,
      SilverMath.compute_recommended_max_total,
      SilverMath.compute_recommended_max_item_only, SilverMath.ASW_HALF_DOLLAR,
      pround, round_eq]

/-- The recommended-max-total value is always a 2-decimal value. -/
theorem round2_rec_max_total (x mm : ℚ) :
    pround 2 (SilverMath.compute_recommended_max_total x mm)
      = SilverMath.compute_recommended_max_total x mm := by
  simp only [SilverMath.compute_recommended_max_total]
  split_ifs <;> exact pround_idem 2 _

/-- The recommended-max-item value is always a 2-decimal value. -/
theorem round2_rec_max_item (t sh : ℚ) :
    pround 2 (SilverMath.compute_recommended_max_item_only t sh)
      = SilverMath.compute_recommended_max_item_only t sh := by
  unfold SilverMath.compute_recommended_max_item_only
  exact pround_idem 2 _

/-- Claim C9 (amended): in the melt calculation only rec_max_total and
rec_max_item are rounded (to 2 decimals, so rounding them again is the
identity); melt_value and melt_payout are returned unrounded, and Scenario A
(title "1921 Walking Liberty Half, AU, no bids", total_price 40, shipping 5,
qty 1, spot 30, payout 80) yields oz_per_coin = 0.36169,
melt_value = 10.8507, melt_payout = 8.68056 and is_hit = False. -/
theorem C9_rounding_and_scenA :
    (∀ (cfg : Config) (l : Listing),
      pround 2 (SilverMath.calc_silver cfg l).recMaxTotal
          = (SilverMath.calc_silver cfg l).recMaxTotal ∧
      pround 2 (SilverMath.calc_silver cfg l).recMaxItem
          = (SilverMath.calc_silver cfg l).recMaxItem) ∧
    (SilverMath.calc_silver cfgScenA lstScenA).quantity = 1 ∧
    (SilverMath.calc_silver cfgScenA lstScenA).ozPerCoin = 36169 / 100000 ∧
    (SilverMath.calc_silver cfgScenA lstScenA).meltValue = 108507 / 10000 ∧
    (SilverMath.calc_silver cfgScenA lstScenA).meltPayout = 108507 / 12500 ∧
    (HitEngine.evaluate_one cfgScenA [] 0 lstScenA).isHit = false := by
  have henrA : SilverMath.enrich_listing_silver_fields lstScenA
      = { lstScenA with ozPerCoin := SilverMath.ASW_HALF_DOLLAR } := by rfl
  have hrec : (SilverMath.calc_silver cfgScenA lstScenA).recMaxTotal = 31 / 4 := by
    simp only [SilverMath.calc_silver, henrA]
    norm_num [lstScenA, cfgScenA, defaultConfig, SilverMath.compute_melt_value,
      SilverMath.compute_payout, SilverMath.compute_recommended_max_total,
      SilverMath.ASW_HALF_DOLLAR, pround, round_eq]
  refine ⟨fun cfg l => ⟨?_, ?_⟩, ?_, ?_, ?_, ?_, ?_⟩
  · simp only [SilverMath.calc_silver]
    exact round2_rec_max_total _ _
  · simp only [SilverMath.calc_silver]
    exact round2_rec_max_item _ _
  · simp only [SilverMath.calc_silver, henrA]
    norm_num [lstScenA]
  · simp only [SilverMath.calc_silver, henrA]
    norm_num [lstScenA, SilverMath.ASW_HALF_DOLLAR]
  · simp only [SilverMath.calc_silver, henrA]
    norm_num [lstScenA, cfgScenA, defaultConfig, SilverMath.compute_melt_value,
      SilverMath.ASW_HALF_DOLLAR]
  · simp only [SilverMath.calc_silver, henrA]
    norm_num [lstScenA, cfgScenA, defaultConfig, SilverMath.compute_melt_value,
      SilverMath.compute_payout, SilverMath.ASW_HALF_DOLLAR]
  · simp only [HitEngine.evaluate_one]
    rw [decide_eq_false_iff_not, hrec]
    norm_num [lstScenA]

/-- Counterexample for C9 as stated: in Scenario A the code returns the
unrounded melt_value 10.8507 and melt_payout 8.68056, not the 2-decimal
10.85 and 8.68 of the claim. -/
theorem C9_counterexample :
    (SilverMath.calc_silver cfgScenA lstScenA).meltValue ≠ 1085 / 100 ∧
    (SilverMath.calc_silver cfgScenA lstScenA).meltPayout ≠ 868 / 100 := by
  have henrA : SilverMath.enrich_listing_silver_fields lstScenA
      = { lstScenA with ozPerCoin := SilverMath.ASW_HALF_DOLLAR } := by rfl
  constructor
  · simp only [SilverMath.calc_silver, henrA]
    norm_num [lstScenA, cfgScenA, defaultConfig, SilverMath.compute_melt_value,
      SilverMath.ASW_HALF_DOLLAR]
  · simp only [SilverMath.calc_silver, henrA]
    norm_num [lstScenA, cfgScenA, defaultConfig, SilverMath.compute_melt_value,
      SilverMath.compute_payout, SilverMath.ASW_HALF_DOLLAR]

/-- Claim C2 (amended): an eligible update_price call applies the capture
bump bumped = total_price * (1 + bump_pct) and stores, on first write,
ema_price = round2(bumped), samples 1, observers_total = bid_count, and on a
subsequent write ema_price = round2(alpha * bumped + (1 - alpha) * prior),
samples + 1, observers_total + bid_count; in both cases last_total_price =
round2(bumped) and last_updated = now (the source rounds every stored price
to 2 decimals). Scenario B: on the empty store, key "Morgan Dollar|1921|P",
total 50, bid_count 2, bump 0.08, alpha 0.4 store ema_price = 54.0,
samples = 1, observers_total = 2. -/
theorem C2_update_price (cfg : Config) (store : PriceStore.Store) (key : Str)
    (total : ℚ) (bids now : ℤ) (hkey : key ≠ [])
    (hbids : cfg.PRICE_CAPTURE_ONLY_IF_BIDS = true → 1 ≤ bids)
    (htotal : 0 < total) :
    UpdateSpec cfg store key total bids now ∧
    (PriceStore.update_price defaultConfig [] keyB (some 50) 2 nowB).2.lookup keyB
      = some { emaPrice := 54, samples := 1, lastTotalPrice := 54,
               lastUpdated := nowB, observersTotal := 2 } := by
  constructor
  · have hgate : ¬(cfg.PRICE_CAPTURE_ONLY_IF_BIDS = true ∧ bids < 1) := by
      rintro ⟨hf, hb⟩
      have := hbids hf
      omega
    unfold UpdateSpec PriceStore.update_price
    simp only [if_neg hkey, if_neg hgate]
    rw [if_neg (not_le.mpr htotal)]
    cases hcase : store.lookup key <;>
      simp [PriceStore.update_ema_entry, hcase]
  · have h54 : pround 2 ((50 : ℚ) * (1 + defaultConfig.PRICE_CAPTURE_BUMP_PCT)) = 54 := by
      norm_num [defaultConfig, pround, round_eq]
    unfold PriceStore.update_price
    simp only [if_neg (show ¬(keyB = []) by decide),
      if_neg (show ¬(defaultConfig.PRICE_CAPTURE_ONLY_IF_BIDS = true ∧ (2:ℤ) < 1) by
        norm_num [defaultConfig])]
    rw [if_neg (by norm_num : ¬((50:ℚ) ≤ 0))]
    show PriceStore.Store.lookup
      (PriceStore.Store.insert [] keyB (PriceStore.update_ema_entry
        (PriceStore.Store.lookup [] keyB) _ 2 defaultConfig.EMA_ALPHA nowB)) keyB = _
    simp [PriceStore.Store.insert, PriceStore.Store.lookup,
      PriceStore.update_ema_entry, h54]

/-- Witness for C2: the update spec holds at the Scenario B input. -/
theorem C2_witness :
    keyB ≠ [] ∧ (1:ℤ) ≤ 2 ∧ (0:ℚ) < 50 ∧
      (UpdateSpec defaultConfig [] keyB 50 2 nowB ∧
        (PriceStore.update_price defaultConfig [] keyB (some 50) 2 nowB).2.lookup keyB
          = some { emaPrice := 54, samples := 1, lastTotalPrice := 54,
                   lastUpdated := nowB, observersTotal := 2 }) :=
  ⟨by decide, by decide, by norm_num,
   C2_update_price defaultConfig [] keyB 50 2 nowB (by decide)
     (fun _ => by decide) (by norm_num)⟩

/-- Counterexample for C2 as stated: with total_price 10.01 and bump 0.08
the bumped value is 10.8108, but the stored ema_price and last_total_price
are its rounding 10.81; a subsequent write against a prior ema of 54.0
stores 36.72, not the unrounded blend 36.72432. -/
theorem C2_counterexample :
    ((PriceStore.update_price defaultConfig [] keyB (some (1001/100)) 2 nowB).2.lookup
        keyB).map PriceStore.Entry.emaPrice = some (1081/100) ∧
    (1081/100 : ℚ) ≠ (1001/100) * (1 + defaultConfig.PRICE_CAPTURE_BUMP_PCT) ∧
    ((PriceStore.update_price defaultConfig storePrior keyB (some (1001/100)) 2
        nowB).2.lookup keyB).map PriceStore.Entry.emaPrice = some (3672/100) ∧
    (3672/100 : ℚ) ≠ defaultConfig.EMA_ALPHA * ((1001/100) * (1 + defaultConfig.PRICE_CAPTURE_BUMP_PCT))
        + (1 - defaultConfig.EMA_ALPHA) * 54 := by
  refine ⟨?_, by norm_num [defaultConfig], ?_, by norm_num [defaultConfig]⟩
  · unfold PriceStore.update_price
    simp only [if_neg (show ¬(keyB = []) by decide),
      if_neg (show ¬(defaultConfig.PRICE_CAPTURE_ONLY_IF_BIDS = true ∧ (2:ℤ) < 1) by
        norm_num [defaultConfig])]
    rw [if_neg (by norm_num : ¬((1001/100:ℚ) ≤ 0))]
    simp [PriceStore.Store.insert, PriceStore.Store.lookup,
      PriceStore.update_ema_entry]
    norm_num [defaultConfig, pround, round_eq]
  · unfold PriceStore.update_price
    simp only [if_neg (show ¬(keyB = []) by decide),
      if_neg (show ¬(defaultConfig.PRICE_CAPTURE_ONLY_IF_BIDS = true ∧ (2:ℤ) < 1) by
        norm_num [defaultConfig])]
    rw [if_neg (by norm_num : ¬((1001/100:ℚ) ≤ 0))]
    simp [storePrior, PriceStore.Store.insert, PriceStore.Store.lookup,
      PriceStore.update_ema_entry]
    norm_num [defaultConfig, pround, round_eq]

/-- Looking up the key just written always finds the written entry. -/
theorem lookup_insert_self (s : PriceStore.Store) (k : Str) (v : PriceStore.Entry) :
    (s.insert k v).lookup k = some v := by
  induction s with
  | nil => simp [PriceStore.Store.insert, PriceStore.Store.lookup]
  | cons hd tl ih =>
    by_cases h : hd.1 = k
    · simp [PriceStore.Store.insert, PriceStore.Store.lookup, h]
    · simp [PriceStore.Store.insert, PriceStore.Store.lookup, h, ih]

/-- Claim C3 (amended): every eligibility condition actually checked by the
code makes the price-memory update a strict no-op returning False (inside
update_price: an absent or nonpositive total price, or no bids while capture
requires them; in the run_once capture loop: a hard-disqualified title
(holed / pierced / drilled damage terms among them), an accessory-term
title, a capture-disqualified title, extracted quantity different from 1,
or an empty title), and update_price returns True exactly when it mutated
the store.  Face-value language is not among the checked conditions: see
the counterexample. -/
theorem C3_eligibility_noop :
    (∀ (cfg : Config) (store : PriceStore.Store) (key : Str) (bids now : ℤ),
      PriceStore.update_price cfg store key none bids now = (false, store)) ∧
    (∀ (cfg : Config) (store : PriceStore.Store) (key : Str) (tp : ℚ) (bids now : ℤ),
      tp ≤ 0 →
      PriceStore.update_price cfg store key (some tp) bids now = (false, store)) ∧
    (∀ (cfg : Config) (store : PriceStore.Store) (key : Str) (tp : Option ℚ) (bids now : ℤ),
      cfg.PRICE_CAPTURE_ONLY_IF_BIDS = true → bids < 1 →
      PriceStore.update_price cfg store key tp bids now = (false, store)) ∧
    (∀ (cfg : Config) (store : PriceStore.Store) (now : ℚ) (nowTs : ℤ) (l : Listing),
      Monitor.hardDisqualifyMatch l.title = true →
      Monitor.capture_listing cfg store now nowTs l = (false, store)) ∧
    (∀ (cfg : Config) (store : PriceStore.Store) (now : ℚ) (nowTs : ℤ) (l : Listing),
      Monitor.accessoryTermMatch l.title = true →
      Monitor.capture_listing cfg store now nowTs l = (false, store)) ∧
    (∀ (cfg : Config) (store : PriceStore.Store) (now : ℚ) (nowTs : ℤ) (l : Listing),
      SilverMath.extract_quantity_from_title l.title ≠ 1 →
      Monitor.capture_listing cfg store now nowTs l = (false, store)) ∧
    (∀ (cfg : Config) (store : PriceStore.Store) (now : ℚ) (nowTs : ℤ) (l : Listing),
      l.title = [] →
      Monitor.capture_listing cfg store now nowTs l = (false, store)) ∧
    (∀ (cfg : Config) (store : PriceStore.Store) (now : ℚ) (nowTs : ℤ) (l : Listing),
      Monitor.capture_disqualified cfg l.title = true →
      Monitor.capture_listing cfg store now nowTs l = (false, store)) ∧
    (∀ (cfg : Config) (store : PriceStore.Store) (now : ℚ) (nowTs : ℤ) (l : Listing),
      cfg.PRICE_CAPTURE_ONLY_IF_BIDS = true → l.bids < 1 →
      Monitor.capture_listing cfg store now nowTs l = (false, store)) ∧
    (∀ (cfg : Config) (store : PriceStore.Store) (key : Str) (tp : Option ℚ) (bids now : ℤ),
      (PriceStore.update_price cfg store key tp bids now).1 = true ↔
        (PriceStore.update_price cfg store key tp bids now).2 ≠ store) := by
  refine ⟨?_, ?_, ?_, ?_, ?_, ?_, ?_, ?_, ?_, ?_⟩
  · intro cfg store key bids now
    unfold PriceStore.update_price
    split_ifs <;> rfl
  · intro cfg store key tp bids now htp
    unfold PriceStore.update_price
    by_cases h1 : key = []
    · rw [if_pos h1]
    · by_cases h2 : cfg.PRICE_CAPTURE_ONLY_IF_BIDS = true ∧ bids < 1
      · rw [if_neg h1, if_pos h2]
      · simp only [if_neg h1, if_neg h2]
        rw [if_pos htp]
  · intro cfg store key tp bids now hflag hbids
    unfold PriceStore.update_price
    by_cases h1 : key = []
    · rw [if_pos h1]
    · rw [if_neg h1, if_pos ⟨hflag, hbids⟩]
  · intro cfg store now nowTs l hhd
    unfold Monitor.capture_listing
    split_ifs <;> rfl
  · intro cfg store now nowTs l hacc
    unfold Monitor.capture_listing
    split_ifs <;> rfl
  · intro cfg store now nowTs l hq
    unfold Monitor.capture_listing
    split_ifs <;> rfl
  · intro cfg store now nowTs l ht
    have hdet : NumisRules.detect_coin_identity l.title = none := by
      rw [ht]; rfl
    unfold Monitor.capture_listing
    rw [hdet]
    split_ifs <;> rfl
  · intro cfg store now nowTs l hdq
    unfold Monitor.capture_listing
    split_ifs <;> rfl
  · intro cfg store now nowTs l hflag hbids
    have hgate : cfg.PRICE_CAPTURE_ONLY_IF_BIDS = true ∧ l.bids < 1 := ⟨hflag, hbids⟩
    unfold Monitor.capture_listing
    split_ifs <;> rfl
  · intro cfg store key tp bids now
    unfold PriceStore.update_price
    by_cases h1 : key = []
    · simp [if_pos h1]
    · by_cases h2 : cfg.PRICE_CAPTURE_ONLY_IF_BIDS = true ∧ bids < 1
      · simp [if_neg h1, if_pos h2]
      · rcases tp with _ | t
        · simp [if_neg h1, if_neg h2]
        · simp only [if_neg h1, if_neg h2]
          by_cases h3 : t ≤ 0
          · rw [if_pos h3]; simp
          · rw [if_neg h3]
            simp only [ne_eq]
            constructor
            · intro _ heq
              have hlook := lookup_insert_self store key
                (PriceStore.update_ema_entry (store.lookup key)
                  (t * (1 + cfg.PRICE_CAPTURE_BUMP_PCT)) bids cfg.EMA_ALPHA now)
              rw [heq] at hlook
              cases hcase : store.lookup key with
              | none => rw [hcase] at hlook; simp [PriceStore.update_ema_entry, hcase] at hlook
              | some e =>
                rw [hcase] at hlook
                simp [PriceStore.update_ema_entry, hcase] at hlook
                have hs := congrArg PriceStore.Entry.samples hlook
                simp at hs
            · intro _
              simp

/-- Witness for C3: each no-op condition exercised at a concrete input
(the hard-disqualify one at a damage-term "holed" title), and the mutation
equivalence at an eligible one. -/
theorem C3_witness :
    PriceStore.update_price defaultConfig [] keyB none 2 0 = (false, []) ∧
    PriceStore.update_price defaultConfig [] keyB (some 0) 2 0 = (false, []) ∧
    PriceStore.update_price defaultConfig [] keyB (some 5) 0 0 = (false, []) ∧
    Monitor.capture_listing defaultConfig [] 0 0
      { lstMorgan with title := ("1921 Morgan Dollar holed").toList } = (false, []) ∧
    Monitor.capture_listing defaultConfig [] 0 0
      { lstMorgan with title := ("1921 Morgan Dollar coin book").toList } = (false, []) ∧
    Monitor.capture_listing defaultConfig [] 0 0 lstLot = (false, []) ∧
    Monitor.capture_listing defaultConfig [] 0 0 { lstLot with title := [] } = (false, []) ∧
    Monitor.capture_listing defaultConfig [] 0 0 lstLot = (false, []) ∧
    Monitor.capture_listing defaultConfig [] 0 0 { lstMorgan with bids := 0 } = (false, []) ∧
    ((PriceStore.update_price defaultConfig [] keyB (some 50) 2 0).1 = true ↔
      (PriceStore.update_price defaultConfig [] keyB (some 50) 2 0).2 ≠ []) :=
  ⟨C3_eligibility_noop.1 defaultConfig [] keyB 2 0,
   C3_eligibility_noop.2.1 defaultConfig [] keyB 0 2 0 (by norm_num),
   C3_eligibility_noop.2.2.1 defaultConfig [] keyB (some 5) 0 0 rfl (by decide),
   C3_eligibility_noop.2.2.2.1 defaultConfig [] 0 0
     { lstMorgan with title := ("1921 Morgan Dollar holed").toList } (by decide),
   C3_eligibility_noop.2.2.2.2.1 defaultConfig [] 0 0
     { lstMorgan with title := ("1921 Morgan Dollar coin book").toList } (by decide),
   C3_eligibility_noop.2.2.2.2.2.1 defaultConfig [] 0 0 lstLot (by decide),
   C3_eligibility_noop.2.2.2.2.2.2.1 defaultConfig [] 0 0 { lstLot with title := [] } rfl,
   C3_eligibility_noop.2.2.2.2.2.2.2.1 defaultConfig [] 0 0 lstLot (by decide),
   C3_eligibility_noop.2.2.2.2.2.2.2.2.1 defaultConfig [] 0 0 { lstMorgan with bids := 0 }
     rfl (by decide),
   C3_eligibility_noop.2.2.2.2.2.2.2.2.2 defaultConfig [] keyB (some 50) 2 0⟩

/-- Counterexample for C3 as stated: face-value language is not a
disqualify term anywhere in the capture path.  The title
"1921 Morgan Dollar $5 face value" passes the hard-disqualify, accessory,
capture-disqualify, quantity, capture-window and bids gates, detects the
Morgan Dollar 1921 P identity, and update_price returns True and writes an
entry into the empty store: not a no-op. -/
theorem C3_counterexample :
    containsStr (("face value").toList) (lower lstFaceValue.title) = true ∧
    Monitor.capture_listing defaultConfig [] 0 0 lstFaceValue
      = PriceStore.update_price defaultConfig [] keyB (some 20) 2 0 ∧
    (PriceStore.update_price defaultConfig [] keyB (some 20) 2 0).1 = true ∧
    (PriceStore.update_price defaultConfig [] keyB (some 20) 2 0).2.lookup keyB
      = some { emaPrice := 108/5, samples := 1, lastTotalPrice := 108/5,
               lastUpdated := 0, observersTotal := 2 } := by
  refine ⟨by decide, ?_, ?_, ?_⟩
  · unfold Monitor.capture_listing
    split_ifs with h1 h2 h3 h4 h5 h6
    · exact absurd h1 (by decide)
    · exact absurd h2 (by decide)
    · exact absurd h3 (by decide)
    · exact absurd h4 (by decide)
    · exfalso
      simp only [defaultConfig, lstFaceValue] at h5
      norm_num at h5
    · exfalso
      rcases h6 with ⟨-, hb⟩
      exact absurd hb (by decide)
    · rw [show NumisRules.detect_coin_identity lstFaceValue.title
          = some (NumisRules.CoinType.morganDollar, 1921, (("P").toList)) from by decide]
      show PriceStore.update_price defaultConfig []
        (NumisRules.make_benchmark_key NumisRules.CoinType.morganDollar 1921
          (("P").toList)) (some lstFaceValue.itemPrice) lstFaceValue.bids 0
        = PriceStore.update_price defaultConfig [] keyB (some 20) 2 0
      rw [show NumisRules.make_benchmark_key NumisRules.CoinType.morganDollar 1921
          (("P").toList) = keyB from by decide]
      rfl
  · unfold PriceStore.update_price
    simp only [if_neg (show ¬(keyB = []) by decide),
      if_neg (show ¬(defaultConfig.PRICE_CAPTURE_ONLY_IF_BIDS = true ∧ (2:ℤ) < 1) by
        norm_num [defaultConfig])]
    rw [if_neg (by norm_num : ¬((20:ℚ) ≤ 0))]
  · have h216 : pround 2 ((20 : ℚ) * (1 + defaultConfig.PRICE_CAPTURE_BUMP_PCT))
        = 108/5 := by
      norm_num [defaultConfig, pround, round_eq]
    unfold PriceStore.update_price
    simp only [if_neg (show ¬(keyB = []) by decide),
      if_neg (show ¬(defaultConfig.PRICE_CAPTURE_ONLY_IF_BIDS = true ∧ (2:ℤ) < 1) by
        norm_num [defaultConfig])]
    rw [if_neg (by norm_num : ¬((20:ℚ) ≤ 0))]
    simp [PriceStore.Store.insert, PriceStore.Store.lookup,
      PriceStore.update_ema_entry, h216]

/-- Claim C4: is_hit holds exactly when total_price is at most the
melt-derived rec_max_total (which the melt calculation always computes, so
the None guard of the source is vacuous), and is_hit is unchanged under any
variation of the numismatic inputs: the price store, the evaluation time
and every configuration field other than the four melt inputs. -/
theorem C4_is_hit (cfg : Config) (store : PriceStore.Store) (now : ℚ)
    (l : Listing) :
    ((HitEngine.evaluate_one cfg store now l).isHit = true ↔
      l.totalPrice ≤ (SilverMath.calc_silver cfg l).recMaxTotal) ∧
    (∀ (cfg' : Config) (store' : PriceStore.Store) (now' : ℚ),
      cfg'.SPOT_PRICE = cfg.SPOT_PRICE →
      cfg'.PAWN_PAYOUT_PCT = cfg.PAWN_PAYOUT_PCT →
      cfg'.BID_OFFSET = cfg.BID_OFFSET →
      cfg'.MIN_MARGIN_PCT = cfg.MIN_MARGIN_PCT →
      (HitEngine.evaluate_one cfg' store' now' l).isHit
        = (HitEngine.evaluate_one cfg store now l).isHit) := by
  constructor
  · simp only [HitEngine.evaluate_one, decide_eq_true_eq]
  · intro cfg' store' now' h1 h2 h3 h4
    have hcs : SilverMath.calc_silver cfg' l = SilverMath.calc_silver cfg l := by
      simp only [SilverMath.calc_silver, h1, h2, h3, h4]
    simp only [HitEngine.evaluate_one, hcs]

/-- Witness for C4: varying dealer payout, prospect thresholds, store and
time leaves is_hit unchanged on a concrete listing. -/
theorem C4_witness :
    (HitEngine.evaluate_one cfgNumisVar storeMorganEma 5 lstMorgan).isHit
      = (HitEngine.evaluate_one defaultConfig [] 0 lstMorgan).isHit :=
  (C4_is_hit defaultConfig [] 0 lstMorgan).2 cfgNumisVar storeMorganEma 5
    rfl rfl rfl rfl

/-- Claim C5: is_prospect is False unless a numismatic override resolved
with a non-None FMV floor, the optional total-spend cap passes, the dealer
margin meets the configured minimum or the score carries the
premium-terms-priced-like-raw reason, and the score meets the configured
minimum; and resolve_fmv with no EMA entry and no static floor yields
(None, None), in which case is_prospect is False regardless of every other
signal. -/
theorem C5_prospect_gates :
    (∀ (cfg : Config) (store : PriceStore.Store) (now : ℚ) (l : Listing),
      (HitEngine.evaluate_one cfg store now l).isProspect = true →
        (HitEngine.evaluate_one cfg store now l).fmvFloor ≠ none ∧
        (HitEngine.evaluate_one cfg store now l).dealerValue ≠ none ∧
        0 < l.totalPrice ∧
        (cfg.PROS_MAX_TOTAL = none ∨
          ∃ cap, cfg.PROS_MAX_TOTAL = some cap ∧ l.totalPrice ≤ cap) ∧
        (((HitEngine.evaluate_one cfg store now l).dealerMarginPct.getD 0
            ≥ cfg.PROS_MIN_DEALER_MARGIN_PCT) ∨
          (Prospect.score_prospect cfg now l
            (HitEngine.evaluate_one cfg store now l).fmvFloor
            (HitEngine.evaluate_one cfg store now l).dealerValue).reasons.contains
              ("premium-terms-priced-like-raw") = true) ∧
        (Prospect.score_prospect cfg now l
          (HitEngine.evaluate_one cfg store now l).fmvFloor
          (HitEngine.evaluate_one cfg store now l).dealerValue).score
            ≥ cfg.PROS_MIN_SCORE) ∧
    HitEngine.resolve_fmv [] NumisRules.CoinType.morganDollar 1921 (['P'])
      = (none, none) ∧
    (∀ (cfg : Config) (store : PriceStore.Store) (now : ℚ) (l : Listing),
      (∀ ov, NumisRules.check_numismatic_override l.title = some ov →
        HitEngine.resolve_fmv store ov.coinType ov.year ov.mint = (none, none)) →
      (HitEngine.evaluate_one cfg store now l).isProspect = false) := by
  refine ⟨?_, rfl, ?_⟩
  · intro cfg store now l
    cases hov : NumisRules.check_numismatic_override l.title with
    | none =>
      simp only [HitEngine.evaluate_one, hov]
      intro h
      exact absurd h (by simp)
    | some ov =>
      rcases hres : HitEngine.resolve_fmv store ov.coinType ov.year ov.mint
        with ⟨fmvOpt, src⟩
      cases fmvOpt with
      | none =>
        simp only [HitEngine.evaluate_one, hov, hres]
        intro h
        exact absurd h (by simp)
      | some fmv =>
        simp only [HitEngine.evaluate_one, hov, hres]
        simp only [Option.map_some']
        intro h
        split_ifs at h with htot hcap
        · rw [decide_eq_true_eq] at h
          refine ⟨by simp, by simp, htot, hcap, ?_, h.2⟩
          rw [if_pos htot]
          exact h.1
  · intro cfg store now l hres
    cases hov : NumisRules.check_numismatic_override l.title with
    | none =>
      simp only [HitEngine.evaluate_one, hov]
      simp
    | some ov =>
      have := hres ov hov
      simp only [HitEngine.evaluate_one, hov, this]
      simp

/-- The prospect score is either an early-return 0 or a clamp to [0,100]. -/
theorem score_prospect_shape (cfg : Config) (now : ℚ) (l : Listing)
    (fmv dealer : Option ℚ) :
    (Prospect.score_prospect cfg now l fmv dealer).score = 0 ∨
    ∃ s : ℤ, (Prospect.score_prospect cfg now l fmv dealer).score
      = max 0 (min 100 s) := by
  rcases fmv with _ | fmv <;> rcases dealer with _ | dealer <;>
    simp only [Prospect.score_prospect]
  · left; trivial
  · left; trivial
  · left; trivial
  · by_cases h1 : l.totalPrice ≤ 0
    · rw [if_pos h1]
      left; rfl
    · rw [if_neg h1]
      by_cases h2 : Prospect.hasAnyKw l.title
          (cfg.PROS_HARD_DISQUALIFY_KEYWORDS ++ cfg.PROS_DISQUALIFY_KEYWORDS) = true
      · rw [if_pos h2]
        left; rfl
      · rw [if_neg h2]
        by_cases h3 : Prospect.matchesProsDisqRegex l.title = true
        · rw [if_pos h3]
          left; rfl
        · rw [if_neg h3]
          right
          exact ⟨_, rfl⟩

/-- The prospect score is never negative. -/
theorem score_prospect_nonneg (cfg : Config) (now : ℚ) (l : Listing)
    (fmv dealer : Option ℚ) :
    0 ≤ (Prospect.score_prospect cfg now l fmv dealer).score := by
  rcases score_prospect_shape cfg now l fmv dealer with h | ⟨s, h⟩ <;> rw [h]
  · exact le_max_left 0 _

/-- The prospect score never exceeds 100. -/
theorem score_prospect_le_100 (cfg : Config) (now : ℚ) (l : Listing)
    (fmv dealer : Option ℚ) :
    (Prospect.score_prospect cfg now l fmv dealer).score ≤ 100 := by
  rcases score_prospect_shape cfg now l fmv dealer with h | ⟨s, h⟩
  · rw [h]
    norm_num
  · rw [h]
    exact max_le (by norm_num) (min_le_left _ _)

/-- Witness for C5: a concrete prospect, its gate conditions extracted by
the theorem, and a concrete non-prospect under an empty store. -/
theorem C5_witness :
    (HitEngine.evaluate_one cfgNumisVar storeMorganEma 0 lstMorgan).isProspect = true ∧
    0 < lstMorgan.totalPrice ∧
    (HitEngine.evaluate_one defaultConfig [] 0 lstMorgan).isProspect = false := by
  have hov : NumisRules.check_numismatic_override lstMorgan.title
      = some { coinType := .morganDollar, year := 1921, mint := ['P'],
               displayName := ("Morgan Dollar 1921-P").toList } := by rfl
  have hfmv : HitEngine.resolve_fmv storeMorganEma NumisRules.CoinType.morganDollar
      1921 (['P']) = (some 120, some (("Offline EMA o.7").toList)) := by rfl
  have hp : (HitEngine.evaluate_one cfgNumisVar storeMorganEma 0 lstMorgan).isProspect
      = true := by
    simp only [HitEngine.evaluate_one, hov, hfmv, Option.map_some']
    rw [if_pos (by norm_num [lstMorgan] : lstMorgan.totalPrice > 0)]
    rw [if_pos (Or.inl (by rfl : cfgNumisVar.PROS_MAX_TOTAL = none))]
    rw [decide_eq_true_eq]
    constructor
    · left
      rw [if_pos (by norm_num [lstMorgan] : lstMorgan.totalPrice > 0)]
      norm_num [lstMorgan, cfgNumisVar, defaultConfig]
    · calc cfgNumisVar.PROS_MIN_SCORE = 0 := by rfl
        _ ≤ _ := score_prospect_nonneg _ _ _ _ _
  exact ⟨hp,
    (C5_prospect_gates.1 cfgNumisVar storeMorganEma 0 lstMorgan hp).2.2.1,
    C5_prospect_gates.2.2 defaultConfig [] 0 lstMorgan (fun ov _ => rfl)⟩

/-- Claim C6: score_prospect always returns a score in [0, 100], and
whenever the title matches a hard-disqualify keyword or regex the result is
score 0 with exactly one reason tag (the anchor gate may fire first, still
yielding 0 with the single missing-anchors tag) and no other signal
applied, for every dealer margin, FMV gap, bid count and other input. -/
theorem C6_score_clamp_and_disqualify :
    (∀ (cfg : Config) (now : ℚ) (l : Listing) (fmv dealer : Option ℚ),
      0 ≤ (Prospect.score_prospect cfg now l fmv dealer).score ∧
      (Prospect.score_prospect cfg now l fmv dealer).score ≤ 100) ∧
    (∀ (cfg : Config) (now : ℚ) (l : Listing) (fmv dealer : Option ℚ),
      (Prospect.hasAnyKw l.title
          (cfg.PROS_HARD_DISQUALIFY_KEYWORDS ++ cfg.PROS_DISQUALIFY_KEYWORDS) = true ∨
        Prospect.matchesProsDisqRegex l.title = true) →
      (Prospect.score_prospect cfg now l fmv dealer).score = 0 ∧
      ((Prospect.score_prospect cfg now l fmv dealer).reasons = ["missing-anchors"] ∨
       (Prospect.score_prospect cfg now l fmv dealer).reasons
          = ["pros-hard-disqualify-keyword"] ∨
       (Prospect.score_prospect cfg now l fmv dealer).reasons
          = ["pros-hard-disqualify-regex"])) := by
  constructor
  · intro cfg now l fmv dealer
    exact ⟨score_prospect_nonneg cfg now l fmv dealer,
           score_prospect_le_100 cfg now l fmv dealer⟩
  · intro cfg now l fmv dealer hdq
    rcases fmv with _ | fmv <;> rcases dealer with _ | dealer <;>
      simp only [Prospect.score_prospect]
    · exact ⟨trivial, Or.inl trivial⟩
    · exact ⟨trivial, Or.inl trivial⟩
    · exact ⟨trivial, Or.inl trivial⟩
    · by_cases h1 : l.totalPrice ≤ 0
      · rw [if_pos h1]
        exact ⟨rfl, Or.inl rfl⟩
      · rw [if_neg h1]
        by_cases h2 : Prospect.hasAnyKw l.title
            (cfg.PROS_HARD_DISQUALIFY_KEYWORDS ++ cfg.PROS_DISQUALIFY_KEYWORDS) = true
        · rw [if_pos h2]
          exact ⟨rfl, Or.inr (Or.inl rfl)⟩
        · rw [if_neg h2]
          have h3 : Prospect.matchesProsDisqRegex l.title = true := by
            rcases hdq with hk | hr
            · exact absurd hk h2
            · exact hr
          rw [if_pos h3]
          exact ⟨rfl, Or.inr (Or.inr rfl)⟩

/-- Witness for C6: a hard-disqualified concrete title scores 0 with a
single tagged reason. -/
theorem C6_witness :
    (Prospect.hasAnyKw (("1889 Morgan holed").toList)
      (defaultConfig.PROS_HARD_DISQUALIFY_KEYWORDS
        ++ defaultConfig.PROS_DISQUALIFY_KEYWORDS) = true) ∧
    (Prospect.score_prospect defaultConfig 0
        { lstMorgan with title := ("1889 Morgan holed").toList } (some 60)
        (some 36)).score = 0 ∧
    ((Prospect.score_prospect defaultConfig 0
        { lstMorgan with title := ("1889 Morgan holed").toList } (some 60)
        (some 36)).reasons = ["missing-anchors"] ∨
     (Prospect.score_prospect defaultConfig 0
        { lstMorgan with title := ("1889 Morgan holed").toList } (some 60)
        (some 36)).reasons = ["pros-hard-disqualify-keyword"] ∨
     (Prospect.score_prospect defaultConfig 0
        { lstMorgan with title := ("1889 Morgan holed").toList } (some 60)
        (some 36)).reasons = ["pros-hard-disqualify-regex"]) := by
  have hkw : Prospect.hasAnyKw (("1889 Morgan holed").toList)
      (defaultConfig.PROS_HARD_DISQUALIFY_KEYWORDS
        ++ defaultConfig.PROS_DISQUALIFY_KEYWORDS) = true := by rfl
  have h := C6_score_clamp_and_disqualify.2 defaultConfig 0
    { lstMorgan with title := ("1889 Morgan holed").toList } (some 60) (some 36)
    (Or.inl hkw)
  exact ⟨hkw, h.1, h.2⟩

/-- Claim C10: evaluate_listings returns a permutation of the evaluated
records sorted ascending by the time-to-end key, records with an unknown
end time (key = the sentinel 10^18) come after every record whose known end
time is below the sentinel, and Scenario D sorts end times [300, 100, 200,
missing] into [100, 200, 300, missing-last]. -/
theorem C10_sort_order :
    (∀ (cfg : Config) (store : PriceStore.Store) (now : ℚ)
        (listings : List Listing),
      (HitEngine.evaluate_listings cfg store now listings).Perm
        (listings.map (HitEngine.evaluate_one cfg store now)) ∧
      (HitEngine.evaluate_listings cfg store now listings).Pairwise
        (fun a b => HitEngine.sortKey a ≤ HitEngine.sortKey b) ∧
      ((∀ l ∈ listings, ∀ t, l.endTimeTs = some t → t < 10 ^ 18) →
        (HitEngine.evaluate_listings cfg store now listings).Pairwise
          (fun a b => a.listing.endTimeTs = none → b.listing.endTimeTs = none))) ∧
    (HitEngine.evaluate_listings defaultConfig [] 0
        [lstD1, lstD2, lstD3, lstD4]).map (fun e => e.listing.endTimeTs)
      = [some 100, some 200, some 300, none] := by
  constructor
  · intro cfg store now listings
    haveI htot : IsTotal HitEngine.Evaluated
        (fun a b => HitEngine.sortKey a ≤ HitEngine.sortKey b) :=
      ⟨fun a b => le_total _ _⟩
    haveI htrans : IsTrans HitEngine.Evaluated
        (fun a b => HitEngine.sortKey a ≤ HitEngine.sortKey b) :=
      ⟨fun _ _ _ => le_trans⟩
    have hperm : (HitEngine.evaluate_listings cfg store now listings).Perm
        (listings.map (HitEngine.evaluate_one cfg store now)) :=
      List.perm_insertionSort _ _
    have hsorted : (HitEngine.evaluate_listings cfg store now listings).Pairwise
        (fun a b => HitEngine.sortKey a ≤ HitEngine.sortKey b) :=
      List.sorted_insertionSort _ _
    refine ⟨hperm, hsorted, ?_⟩
    intro hbound
    refine List.Pairwise.imp_of_mem ?_ hsorted
    intro a b _ hbmem hab hanone
    by_contra hbne
    rcases hbt : b.listing.endTimeTs with _ | t
    · exact hbne hbt
    · have hbin : b ∈ listings.map (HitEngine.evaluate_one cfg store now) :=
        hperm.subset hbmem
      rcases List.mem_map.mp hbin with ⟨l, hl, hbl⟩
      have hblst : b.listing = l := by
        rw [← hbl]
        simp only [HitEngine.evaluate_one]
      have hlt : t < 10 ^ 18 := by
        apply hbound l hl
        rw [← hblst]
        exact hbt
      have hka : HitEngine.sortKey a = 10 ^ 18 := by
        simp [HitEngine.sortKey, hanone]
      have hkb : HitEngine.sortKey b = t := by
        simp [HitEngine.sortKey, hbt]
      rw [hka, hkb] at hab
      linarith
  · decide

/-- Witness for C10: on the Scenario D records the unknown-end record sorts
after every known-end record. -/
theorem C10_witness :
    (HitEngine.evaluate_listings defaultConfig [] 0
        [lstD1, lstD2, lstD3, lstD4]).Pairwise
      (fun a b => a.listing.endTimeTs = none → b.listing.endTimeTs = none) :=
  (C10_sort_order.1 defaultConfig [] 0 [lstD1, lstD2, lstD3, lstD4]).2.2
    (by
      intro l hl t ht
      fin_cases hl <;> simp_all [lstD1, lstD2, lstD3, lstD4] <;>
        subst ht <;> norm_num)

/-- Claim C8 (amended): detect_coin_identity returns some (coin_type, year,
mint) exactly when the stripped title is nonempty, matches one of the six
series keyword patterns Morgan / Peace / Barber Half / Seated Liberty Half /
Seated Liberty Dollar / Walking Liberty Half (first pattern wins; Franklin
and Kennedy are not recognized), its first 17xx-20xx year token lies in that
series' production window, and the title contains none of proof / replica /
copy; the mint is the uppercased first standalone cc/d/s/o token anywhere in
the title (not necessarily adjacent to the year), defaulting to P. -/
theorem C8_detect_identity (title : Str) (coin : NumisRules.CoinType)
    (year : ℤ) (mint : Str) :
    NumisRules.detect_coin_identity title = some (coin, year, mint) ↔
      (strip title ≠ [] ∧
       NumisRules.firstCoinPattern (lower (strip title)) = some coin ∧
       NumisRules.yearSearch (strip title) = some year ∧
       NumisRules.hasRejectTerm (lower (strip title)) = false ∧
       NumisRules.yearInWindow coin year = true ∧
       mint = NumisRules.normMint (NumisRules.mintSearch (lower (strip title)))) := by
  unfold NumisRules.detect_coin_identity
  by_cases ht : strip title = []
  · simp [ht]
  · rw [if_neg ht]
    simp only [ne_eq, ht, not_false_eq_true, true_and]
    cases hc : NumisRules.firstCoinPattern (lower (strip title)) with
    | none => simp
    | some c =>
      cases hy : NumisRules.yearSearch (strip title) with
      | none => simp
      | some y =>
        by_cases hr : NumisRules.hasRejectTerm (lower (strip title)) = true
        · simp [hr]
        · rw [Bool.not_eq_true] at hr
          by_cases hw : NumisRules.yearInWindow c y = true
          · simp only [hr, hw, Bool.false_eq_true, if_false, and_true, true_and,
              Option.some.injEq, Prod.mk.injEq]
            rw [if_pos trivial, Option.some.injEq, Prod.mk.injEq, Prod.mk.injEq]
            constructor
            · rintro ⟨rfl, rfl, rfl⟩
              exact ⟨rfl, rfl, hw, rfl⟩
            · rintro ⟨rfl, rfl, _, rfl⟩
              exact ⟨rfl, rfl, rfl⟩
          · simp only [hr, hw, Bool.false_eq_true, if_false]
            constructor
            · intro h
              exact absurd h (by simp)
            · rintro ⟨h1, h2, _, hwin, _⟩
              rw [Option.some.injEq] at h1 h2
              subst h1
              subst h2
              exact absurd hwin hw

/-- Witness for C8: the characterization applied at a concrete title. -/
theorem C8_witness :
    NumisRules.detect_coin_identity (("1921 Morgan Dollar VG").toList)
      = some (NumisRules.CoinType.morganDollar, 1921, (("P").toList)) :=
  (C8_detect_identity (("1921 Morgan Dollar VG").toList)
      NumisRules.CoinType.morganDollar 1921 (("P").toList)).mpr
    ⟨by decide, by decide, by decide, by decide, by decide, by decide⟩

/-- Counterexample for C8 as stated: "1952 Franklin Half Dollar" carries
the Franklin series keywords, a year in the Franklin window and no
proof/replica/copy term, yet detection returns None (Franklin is not among
the coin patterns); and in "S mint Morgan Silver Dollar 1881" the mint
token S is nowhere adjacent to the year, yet the parsed mint is "S", not
the claimed default "P". -/
theorem C8_counterexample :
    NumisRules.detect_coin_identity (("1952 Franklin Half Dollar").toList) = none ∧
    containsStr (("franklin").toList)
      (lower (("1952 Franklin Half Dollar").toList)) = true ∧
    containsStr (("half").toList)
      (lower (("1952 Franklin Half Dollar").toList)) = true ∧
    NumisRules.yearSearch (("1952 Franklin Half Dollar").toList) = some 1952 ∧
    NumisRules.hasRejectTerm (lower (("1952 Franklin Half Dollar").toList)) = false ∧
    NumisRules.detect_coin_identity (("S mint Morgan Silver Dollar 1881").toList)
      = some (NumisRules.CoinType.morganDollar, 1881, (("S").toList)) := by
  decide

/-- Value and digit-class of Nat.digitChar below 10. -/
theorem digitChar_spec (d : ℕ) (hd : d < 10) :
    isDigitChar (Nat.digitChar d) = true ∧
      (Nat.digitChar d).toNat = 48 + d ∧
      Nat.digitChar d ≠ '\n' ∧ Nat.digitChar d ≠ '"' := by
  interval_cases d <;> exact ⟨by decide, by decide, by decide, by decide⟩

/-- natToChars never returns the empty list. -/
theorem natToChars_ne_nil (n : ℕ) : PriceStore.natToChars n ≠ [] := by
  unfold PriceStore.natToChars
  split_ifs
  · simp
  · simp

/-- Every character of natToChars is a digit. -/
theorem natToChars_digits (n : ℕ) :
    ∀ c ∈ PriceStore.natToChars n, isDigitChar c = true := by
  induction n using Nat.strong_induction_on with
  | _ n ih =>
    unfold PriceStore.natToChars
    split_ifs with h
    · intro c hc
      rw [List.mem_singleton] at hc
      subst hc
      exact (digitChar_spec n h).1
    · intro c hc
      rw [List.mem_append] at hc
      rcases hc with hc | hc
      · exact ih (n / 10) (Nat.div_lt_self (by omega) (by omega)) c hc
      · rw [List.mem_singleton] at hc
        subst hc
        exact (digitChar_spec (n % 10) (Nat.mod_lt n (by omega))).1

/-- Reading back the digits of natToChars gives the number. -/
theorem charsToNat_natToChars (n : ℕ) :
    charsToNat (PriceStore.natToChars n) = n := by
  induction n using Nat.strong_induction_on with
  | _ n ih =>
    unfold PriceStore.natToChars
    split_ifs with h
    · show List.foldl _ 0 _ = n
      simp [List.foldl, (digitChar_spec n h).2.1]
    · have hrec := ih (n / 10) (Nat.div_lt_self (by omega) (by omega))
      show List.foldl _ 0 _ = n
      rw [List.foldl_append]
      have heq : List.foldl (fun a c => a * 10 + (c.toNat - '0'.toNat)) 0
          (PriceStore.natToChars (n / 10)) = n / 10 := hrec
      rw [heq]
      simp [List.foldl, (digitChar_spec (n % 10) (Nat.mod_lt n (by omega))).2.1]
      omega

/-- takeWhile over a block of satisfying characters followed by a failing
head takes exactly the block. -/
theorem takeWhile_block (p : Char → Bool) (a rest : Str)
    (ha : ∀ c ∈ a, p c = true)
    (hr : ∀ c, rest.head? = some c → p c = false) :
    (a ++ rest).takeWhile p = a ∧ (a ++ rest).dropWhile p = rest := by
  induction a with
  | nil =>
    simp only [List.nil_append]
    cases rest with
    | nil => simp
    | cons c cs =>
      have := hr c rfl
      simp [List.takeWhile, List.dropWhile, this]
  | cons c cs ih =>
    have hc := ha c (by simp)
    have hrest := ih (fun d hd => ha d (by simp [hd]))
    simp [List.takeWhile, List.dropWhile, hc, hrest.1, hrest.2]

/-- A separator head after a number: a comma or a closing bracket. -/
def SepHead (rest : Str) : Prop :=
  rest.head? = some ',' ∨ rest.head? = some ']'

/-- A separator character is neither a digit nor a dot. -/
theorem sepHead_spec (rest : Str) (h : SepHead rest) :
    ∀ c, rest.head? = some c → isDigitChar c = false ∧ c ≠ '.' := by
  intro c hc
  rcases h with h | h <;> rw [hc] at h <;>
    injection h with h <;> subst h <;> exact ⟨by decide, by decide⟩

/-- parseNumber reads back a rendered nonnegative integer. -/
theorem parseNumber_renderInt (z : ℤ) (hz : 0 ≤ z) (rest : Str)
    (hr : SepHead rest) :
    PriceStore.parseNumber (PriceStore.renderInt z ++ rest)
      = some ((z : ℚ), rest) := by
  have hnn : ¬(z < 0) := by omega
  unfold PriceStore.renderInt
  rw [if_neg hnn]
  have hblk := takeWhile_block isDigitChar (PriceStore.natToChars z.toNat) rest
    (natToChars_digits z.toNat)
    (fun c hc => (sepHead_spec rest hr c hc).1)
  unfold PriceStore.parseNumber
  simp only [hblk.1, hblk.2]
  rw [if_neg (natToChars_ne_nil z.toNat)]
  have hcast : ((z.toNat : ℕ) : ℚ) = (z : ℚ) := by
    exact_mod_cast congrArg (fun (w : ℤ) => (w : ℚ)) (Int.toNat_of_nonneg hz)
  split
  · next r2 =>
    exact absurd rfl (sepHead_spec ('.' :: r2) hr '.' rfl).2
  · next =>
    rw [charsToNat_natToChars, hcast]

/-- parseNumber reads back an integer part, a dot and a fraction block. -/
theorem parseNumber_frac (a fs rest : Str)
    (ha : ∀ c ∈ a, isDigitChar c = true) (hane : a ≠ [])
    (hf : ∀ c ∈ fs, isDigitChar c = true) (hfne : fs ≠ [])
    (hr : SepHead rest) :
    PriceStore.parseNumber (a ++ '.' :: (fs ++ rest))
      = some ((charsToNat a : ℚ) + (charsToNat fs : ℚ) / 10 ^ fs.length,
          rest) := by
  have hblk1 := takeWhile_block isDigitChar a ('.' :: (fs ++ rest)) ha
    (fun c hc => by injection hc with h; subst h; decide)
  have hblk2 := takeWhile_block isDigitChar fs rest hf
    (fun c hc => (sepHead_spec rest hr c hc).1)
  unfold PriceStore.parseNumber
  simp only [hblk1.1, hblk1.2]
  rw [if_neg hane]
  simp only [hblk2.1, hblk2.2]
  rw [if_neg hfne]

/-- Fraction digits of renderFloat are digits. -/
theorem frac_digit_mem (d : ℕ) (hd : d < 10) :
    ∀ c ∈ [Nat.digitChar d], isDigitChar c = true := by
  intro c hc
  rw [List.mem_singleton] at hc
  subst hc
  exact (digitChar_spec d hd).1

/-- Value of a one-digit block. -/
theorem charsToNat_one_digit (d : ℕ) (hd : d < 10) :
    charsToNat [Nat.digitChar d] = d := by
  simp [charsToNat, (digitChar_spec d hd).2.1]

/-- Value of a two-digit block. -/
theorem charsToNat_two_digits (a b : ℕ) (ha : a < 10) (hb : b < 10) :
    charsToNat [Nat.digitChar a, Nat.digitChar b] = 10 * a + b := by
  simp [charsToNat, (digitChar_spec a ha).2.1, (digitChar_spec b hb).2.1]
  omega

/-- parseNumber reads back a rendered 2-decimal float as the exact
rational n/100. -/
theorem parseNumber_renderFloat (n : ℕ) (rest : Str) (hr : SepHead rest) :
    PriceStore.parseNumber (PriceStore.renderFloat n ++ rest)
      = some ((n : ℚ) / 100, rest) := by
  unfold PriceStore.renderFloat
  split_ifs with h1 h2
  · have hshape : (PriceStore.natToChars (n / 100) ++ ['.', '0']) ++ rest
        = PriceStore.natToChars (n / 100) ++ '.' :: (['0'] ++ rest) := by
      simp
    rw [hshape, parseNumber_frac _ _ _ (natToChars_digits _)
      (natToChars_ne_nil _)
      (by
        intro c hc
        rw [List.mem_singleton] at hc
        subst hc
        decide)
      (by simp) hr]
    have hdvd : (100 : ℕ) ∣ n := Nat.dvd_of_mod_eq_zero h1
    have hval : (charsToNat (PriceStore.natToChars (n / 100)) : ℚ)
        + (charsToNat ['0'] : ℚ) / 10 ^ ([('0' : Char)].length) = (n : ℚ) / 100 := by
      rw [charsToNat_natToChars]
      rw [Nat.cast_div hdvd (by norm_num)]
      norm_num [charsToNat]
    rw [hval]
  · have hd : (n / 10) % 10 < 10 := Nat.mod_lt _ (by omega)
    have hshape : (PriceStore.natToChars (n / 100)
          ++ ['.', Nat.digitChar ((n / 10) % 10)]) ++ rest
        = PriceStore.natToChars (n / 100)
          ++ '.' :: ([Nat.digitChar ((n / 10) % 10)] ++ rest) := by
      simp
    rw [hshape, parseNumber_frac _ _ _ (natToChars_digits _)
      (natToChars_ne_nil _) (frac_digit_mem _ hd) (by simp) hr]
    have hval : (charsToNat (PriceStore.natToChars (n / 100)) : ℚ)
        + (charsToNat [Nat.digitChar ((n / 10) % 10)] : ℚ)
          / 10 ^ ([Nat.digitChar ((n / 10) % 10)].length) = (n : ℚ) / 100 := by
      rw [charsToNat_natToChars, charsToNat_one_digit _ hd]
      have hn : (n : ℚ) = 100 * ((n / 100 : ℕ) : ℚ)
          + 10 * (((n / 10) % 10 : ℕ) : ℚ) := by
        exact_mod_cast congrArg (fun (m : ℕ) => (m : ℚ))
          (by omega : n = 100 * (n / 100) + 10 * ((n / 10) % 10))
      rw [hn]
      field_simp
      ring
    rw [hval]
  · have hd1 : (n / 10) % 10 < 10 := Nat.mod_lt _ (by omega)
    have hd2 : n % 10 < 10 := Nat.mod_lt _ (by omega)
    have hshape : (PriceStore.natToChars (n / 100)
          ++ ['.', Nat.digitChar ((n / 10) % 10), Nat.digitChar (n % 10)]) ++ rest
        = PriceStore.natToChars (n / 100)
          ++ '.' :: ([Nat.digitChar ((n / 10) % 10), Nat.digitChar (n % 10)] ++ rest) := by
      simp
    rw [hshape, parseNumber_frac _ _ _ (natToChars_digits _)
      (natToChars_ne_nil _)
      (by
        intro c hc
        rcases List.mem_cons.mp hc with h | h
        · subst h
          exact (digitChar_spec _ hd1).1
        · rw [List.mem_singleton] at h
          subst h
          exact (digitChar_spec _ hd2).1)
      (by simp) hr]
    have hval : (charsToNat (PriceStore.natToChars (n / 100)) : ℚ)
        + (charsToNat [Nat.digitChar ((n / 10) % 10), Nat.digitChar (n % 10)] : ℚ)
          / 10 ^ ([Nat.digitChar ((n / 10) % 10), Nat.digitChar (n % 10)].length)
        = (n : ℚ) / 100 := by
      rw [charsToNat_natToChars, charsToNat_two_digits _ _ hd1 hd2]
      have hn : (n : ℚ) = 100 * ((n / 100 : ℕ) : ℚ)
          + (10 * (((n / 10) % 10 : ℕ) : ℚ) + ((n % 10 : ℕ) : ℚ)) := by
        exact_mod_cast congrArg (fun (m : ℕ) => (m : ℚ))
          (by omega : n = 100 * (n / 100) + (10 * ((n / 10) % 10) + n % 10))
      rw [hn]
      push_cast
      field_simp
      ring
    rw [hval]

/-- centsOf recovers the numerator of n/100. -/
theorem centsOf_div_100 (n : ℕ) :
    PriceStore.centsOf ((n : ℚ) / 100) = some n := by
  unfold PriceStore.centsOf
  have hmul : ((n : ℚ) / 100) * 100 = (n : ℚ) := by field_simp
  rw [if_pos]
  · rw [hmul]
    simp
  · constructor
    · positivity
    · rw [hmul]
      simp

/-- parseNumber reads back a rendered 2-decimal price. -/
theorem parseNumber_renderQ2 (n : ℕ) (rest : Str) (hr : SepHead rest) :
    PriceStore.parseNumber (PriceStore.renderQ2 ((n : ℚ) / 100) ++ rest)
      = some ((n : ℚ) / 100, rest) := by
  unfold PriceStore.renderQ2
  rw [centsOf_div_100]
  exact parseNumber_renderFloat n rest hr

/-- pyint recovers a nonnegative integer from its rational image. -/
theorem pyint_intCast (z : ℤ) (hz : 0 ≤ z) :
    PriceStore.pyint ((z : ℚ)) = z := by
  unfold PriceStore.pyint
  rw [if_pos (by exact_mod_cast hz)]
  exact Int.floor_intCast z

/-- Every character of a rendered float is a digit or the dot. -/
theorem renderFloat_chars (n : ℕ) :
    ∀ c ∈ PriceStore.renderFloat n, isDigitChar c = true ∨ c = '.' := by
  unfold PriceStore.renderFloat
  split_ifs <;> intro c hc <;> rw [List.mem_append] at hc <;>
    rcases hc with hc | hc
  · exact Or.inl (natToChars_digits _ c hc)
  · rcases List.mem_cons.mp hc with h | h
    · exact Or.inr h
    · rw [List.mem_singleton] at h
      subst h
      exact Or.inl (by decide)
  · exact Or.inl (natToChars_digits _ c hc)
  · rcases List.mem_cons.mp hc with h | h
    · exact Or.inr h
    · rw [List.mem_singleton] at h
      subst h
      exact Or.inl (digitChar_spec _ (Nat.mod_lt _ (by omega))).1
  · exact Or.inl (natToChars_digits _ c hc)
  · rcases List.mem_cons.mp hc with h | h
    · exact Or.inr h
    · rcases List.mem_cons.mp h with h2 | h2
      · subst h2
        exact Or.inl (digitChar_spec _ (Nat.mod_lt _ (by omega))).1
      · rw [List.mem_singleton] at h2
        subst h2
        exact Or.inl (digitChar_spec _ (Nat.mod_lt _ (by omega))).1

/-- Every character of a rendered value list is a digit, dot, comma,
space, bracket or minus sign. -/
theorem renderEntryVals_chars (e : PriceStore.Entry) :
    ∀ c ∈ PriceStore.renderEntryVals e,
      isDigitChar c = true ∨ c = '.' ∨ c = ',' ∨ c = ' ' ∨ c = '[' ∨ c = ']'
        ∨ c = '-' := by
  have hint : ∀ (z : ℤ), ∀ c ∈ PriceStore.renderInt z,
      isDigitChar c = true ∨ c = '-' := by
    intro z c hc
    unfold PriceStore.renderInt at hc
    split_ifs at hc
    · rcases List.mem_cons.mp hc with h | h
      · exact Or.inr h
      · exact Or.inl (natToChars_digits _ c h)
    · exact Or.inl (natToChars_digits _ c hc)
  have hq2 : ∀ (q : ℚ), ∀ c ∈ PriceStore.renderQ2 q,
      isDigitChar c = true ∨ c = '.' := by
    intro q c hc
    unfold PriceStore.renderQ2 at hc
    rcases hcase : PriceStore.centsOf q with _ | n <;> rw [hcase] at hc
    · exact renderFloat_chars 0 c hc
    · exact renderFloat_chars n c hc
  intro c hc
  unfold PriceStore.renderEntryVals at hc
  simp only [List.mem_append] at hc
  rcases hc with ((((((((((hc | hc) | hc) | hc) | hc) | hc) | hc) | hc) | hc) | hc) | hc)
  · fin_cases hc <;> decide
  · rcases hq2 _ c hc with h | h
    · exact Or.inl h
    · subst h
      decide
  · fin_cases hc <;> decide
  · rcases hint _ c hc with h | h
    · exact Or.inl h
    · subst h
      decide
  · fin_cases hc <;> decide
  · rcases hq2 _ c hc with h | h
    · exact Or.inl h
    · subst h
      decide
  · fin_cases hc <;> decide
  · rcases hint _ c hc with h | h
    · exact Or.inl h
    · subst h
      decide
  · fin_cases hc <;> decide
  · rcases hint _ c hc with h | h
    · exact Or.inl h
    · subst h
      decide
  · fin_cases hc <;> decide

/-- dropLit strips exactly the literal it is given. -/
theorem dropLit_self (w s : Str) : dropLit w (w ++ s) = some s := by
  induction w with
  | nil => rfl
  | cons c cs ih => simp [dropLit, ih]

/-- A safe character escapes to itself. -/
theorem escapeChar_safe (c : Char) (h : SafeKeyChar c) :
    PriceStore.escapeChar c = [c] := by
  obtain ⟨h1, h2, h3⟩ := h
  unfold PriceStore.escapeChar
  rw [if_neg h1, if_neg h2]
  rw [if_neg, if_neg, if_neg, if_neg, if_neg, if_neg]
  all_goals intro hcon
  · omega
  all_goals (subst hcon; revert h3; decide)

/-- A safe key is written without escape sequences. -/
theorem flatMap_escape_safe (k : Str) (h : SafeKey k) :
    k.flatMap PriceStore.escapeChar = k := by
  induction k with
  | nil => rfl
  | cons c cs ih =>
    rw [List.flatMap_cons, escapeChar_safe c (h c (by simp))]
    rw [ih (fun d hd => h d (by simp [hd]))]
    rfl

/-- A comma or closing bracket at the head is a separator head. -/
theorem sepHead_cons (c : Char) (rest : Str) (h : c = ',' ∨ c = ']') :
    SepHead (c :: rest) := by
  rcases h with h | h
  · subst h
    exact Or.inl rfl
  · subst h
    exact Or.inr rfl

/-- dropLit peels one matching character. -/
theorem dropLit_cons (c : Char) (w s : Str) :
    dropLit (c :: w) (c :: s) = dropLit w s := by
  simp [dropLit]

/-- dropLit of the empty literal is the identity. -/
theorem dropLit_nil (s : Str) : dropLit [] s = some s := rfl

/-- parseEntryVals reads back a rendered canonical entry. -/
theorem parseEntryVals_render (e : PriceStore.Entry) (he : EntryCanon e)
    (rest : Str) :
    PriceStore.parseEntryVals (PriceStore.renderEntryVals e ++ rest)
      = some (e, rest) := by
  obtain ⟨ema, samples, last, updated, observers⟩ := e
  obtain ⟨⟨n1, h1⟩, hs, ⟨n2, h2⟩, hu, ho⟩ := he
  simp only at h1 h2 hs hu ho
  subst h1
  subst h2
  unfold PriceStore.renderEntryVals PriceStore.parseEntryVals
  simp only [List.append_assoc, List.cons_append, List.nil_append]
  simp only [Option.bind_eq_bind]
  rw [dropLit_cons, dropLit_nil]
  simp only [Option.some_bind]
  rw [parseNumber_renderQ2 n1 _ (sepHead_cons _ _ (Or.inl rfl))]
  simp only [Option.some_bind]
  rw [dropLit_cons, dropLit_cons, dropLit_nil]
  simp only [Option.some_bind]
  rw [parseNumber_renderInt samples hs _ (sepHead_cons _ _ (Or.inl rfl))]
  simp only [Option.some_bind]
  rw [dropLit_cons, dropLit_cons, dropLit_nil]
  simp only [Option.some_bind]
  rw [parseNumber_renderQ2 n2 _ (sepHead_cons _ _ (Or.inl rfl))]
  simp only [Option.some_bind]
  rw [dropLit_cons, dropLit_cons, dropLit_nil]
  simp only [Option.some_bind]
  rw [parseNumber_renderInt updated hu _ (sepHead_cons _ _ (Or.inl rfl))]
  simp only [Option.some_bind]
  rw [dropLit_cons, dropLit_cons, dropLit_nil]
  simp only [Option.some_bind]
  rw [parseNumber_renderInt observers ho _ (sepHead_cons _ _ (Or.inr rfl))]
  simp only [Option.some_bind]
  rw [dropLit_cons, dropLit_nil]
  simp only [Option.some_bind]
  rw [pyint_intCast samples hs, pyint_intCast updated hu,
    pyint_intCast observers ho]
  rfl

/-- The key block of a saved line: takeWhile/dropWhile at the closing
quote recover the key and the remainder. -/
theorem key_block (k : Str) (hk : SafeKey k) (s : Str) :
    (k ++ '"' :: s).takeWhile (fun c => c ≠ '"') = k ∧
    (k ++ '"' :: s).dropWhile (fun c => c ≠ '"') = '"' :: s := by
  refine takeWhile_block _ k ('"' :: s) ?_ ?_
  · intro c hc
    simpa using (hk c hc).1
  · intro c hc
    injection hc with hc
    subst hc
    decide

/-- parseEntryLine reads back a rendered line with a trailing comma. -/
theorem parseEntryLine_render_mid (k : Str) (hk : SafeKey k)
    (e : PriceStore.Entry) (he : EntryCanon e) :
    PriceStore.parseEntryLine true (PriceStore.renderLine k e ++ [','])
      = some (k, e) := by
  unfold PriceStore.renderLine PriceStore.renderKey PriceStore.parseEntryLine
  rw [flatMap_escape_safe k hk]
  simp only [List.append_assoc, List.cons_append, List.nil_append]
  simp only [Option.bind_eq_bind]
  rw [dropLit_cons, dropLit_cons, dropLit_cons, dropLit_nil]
  simp only [Option.some_bind]
  rw [(key_block k hk _).1, (key_block k hk _).2]
  rw [dropLit_cons, dropLit_cons, dropLit_cons, dropLit_nil]
  simp only [Option.some_bind]
  rw [parseEntryVals_render e he [',']]
  simp only [Option.some_bind]
  rfl

/-- parseEntryLine reads back a rendered line without a trailing comma. -/
theorem parseEntryLine_render_last (k : Str) (hk : SafeKey k)
    (e : PriceStore.Entry) (he : EntryCanon e) :
    PriceStore.parseEntryLine false (PriceStore.renderLine k e)
      = some (k, e) := by
  have hvals := parseEntryVals_render e he []
  rw [List.append_nil] at hvals
  unfold PriceStore.renderLine PriceStore.renderKey PriceStore.parseEntryLine
  rw [flatMap_escape_safe k hk]
  simp only [List.append_assoc, List.cons_append, List.nil_append]
  simp only [Option.bind_eq_bind]
  rw [dropLit_cons, dropLit_cons, dropLit_cons, dropLit_nil]
  simp only [Option.some_bind]
  rw [(key_block k hk _).1, (key_block k hk _).2]
  rw [dropLit_cons, dropLit_cons, dropLit_cons, dropLit_nil]
  simp only [Option.some_bind]
  rw [hvals]
  simp only [Option.some_bind]
  rfl

/-- splitOnNl always yields at least one segment. -/
theorem splitOnNl_exists_cons (s : Str) :
    ∃ a l, PriceStore.splitOnNl s = a :: l := by
  induction s with
  | nil => exact ⟨[], [], rfl⟩
  | cons c cs ih =>
    obtain ⟨a, l, h⟩ := ih
    refine ⟨if c = '\n' then [] else c :: a,
      if c = '\n' then a :: l else l, ?_⟩
    unfold PriceStore.splitOnNl
    rw [h]
    split_ifs <;> rfl

/-- Unfolding equation for splitOnNl on a cons, given the split of the
tail. -/
theorem splitOnNl_cons_eq (c : Char) (cs : Str) (a : Str) (l : List Str)
    (h : PriceStore.splitOnNl cs = a :: l) :
    PriceStore.splitOnNl (c :: cs)
      = if c = '\n' then [] :: a :: l else (c :: a) :: l := by
  unfold PriceStore.splitOnNl
  rw [h]

/-- splitOnNl splits off a newline-free prefix line at its newline. -/
theorem splitOnNl_line (l : Str) (hl : ∀ c ∈ l, c ≠ '\n') (s : Str) :
    PriceStore.splitOnNl (l ++ '\n' :: s) = l :: PriceStore.splitOnNl s := by
  induction l with
  | nil =>
    obtain ⟨a, t, h⟩ := splitOnNl_exists_cons s
    rw [List.nil_append, splitOnNl_cons_eq '\n' s a t h, if_pos rfl, h]
  | cons c cs ih =>
    have hrec := ih (fun d hd => hl d (by simp [hd]))
    obtain ⟨a, t, h⟩ := splitOnNl_exists_cons (cs ++ '\n' :: s)
    rw [List.cons_append, splitOnNl_cons_eq c _ a t h,
      if_neg (hl c (by simp))]
    have h2 : a :: t = cs :: PriceStore.splitOnNl s := by rw [← h, hrec]
    injection h2 with h3 h4
    rw [h3, h4]

/-- Unfolding equation for joinLines on a cons. -/
theorem joinLines_cons (l : Str) (ls : List Str) :
    PriceStore.joinLines (l :: ls) = l ++ '\n' :: PriceStore.joinLines ls := by
  unfold PriceStore.joinLines
  rw [List.flatMap_cons]
  simp

/-- splitOnNl inverts joinLines on newline-free lines, up to the final
empty segment after the trailing newline. -/
theorem splitOnNl_joinLines (ls : List Str)
    (h : ∀ l ∈ ls, ∀ c ∈ l, c ≠ '\n') :
    PriceStore.splitOnNl (PriceStore.joinLines ls) = ls ++ [[]] := by
  induction ls with
  | nil => rfl
  | cons l ls ih =>
    rw [joinLines_cons, splitOnNl_line l (h l (by simp)) _,
      ih (fun m hm => h m (by simp [hm]))]
    rfl

/-- A rendered store line contains no newline. -/
theorem renderLine_no_nl (k : Str) (hk : SafeKey k) (e : PriceStore.Entry) :
    ∀ c ∈ PriceStore.renderLine k e, c ≠ '\n' := by
  intro c hc
  unfold PriceStore.renderLine PriceStore.renderKey at hc
  rw [flatMap_escape_safe k hk] at hc
  simp only [List.append_assoc, List.cons_append, List.nil_append,
    List.mem_cons, List.mem_append] at hc
  intro hcn
  subst hcn
  rcases hc with h | h | h | h
  · exact absurd h (by decide)
  · exact absurd h (by decide)
  · exact absurd h (by decide)
  rcases h with h | h
  · have := (hk _ h).2.2
    revert this
    decide
  rcases h with h | h | h | h
  · exact absurd h (by decide)
  · exact absurd h (by decide)
  · exact absurd h (by decide)
  have h7 := renderEntryVals_chars e _ h
  rcases h7 with h | h | h | h | h | h | h
  all_goals exact absurd h (by decide)

/-- Unfolding equation for renderLines on two or more bindings. -/
theorem renderLines_cons (k : Str) (e : PriceStore.Entry)
    (y : Str × PriceStore.Entry) (ys : PriceStore.Store) :
    PriceStore.renderLines ((k, e) :: y :: ys)
      = (PriceStore.renderLine k e ++ [','])
        :: PriceStore.renderLines (y :: ys) := rfl

/-- renderLines of a nonempty store starts with a line. -/
theorem renderLines_cons_exists (y : Str × PriceStore.Entry)
    (ys : PriceStore.Store) :
    ∃ a l, PriceStore.renderLines (y :: ys) = a :: l := by
  obtain ⟨k, e⟩ := y
  cases ys with
  | nil => exact ⟨_, _, rfl⟩
  | cons z zs => exact ⟨_, _, rfl⟩

/-- Every rendered store line is newline-free. -/
theorem renderLines_no_nl (s : PriceStore.Store)
    (h : ∀ kv ∈ s, SafeKey kv.1) :
    ∀ l ∈ PriceStore.renderLines s, ∀ c ∈ l, c ≠ '\n' := by
  induction s with
  | nil =>
    intro l hl
    exact absurd hl (by simp [PriceStore.renderLines])
  | cons kv rest ih =>
    obtain ⟨k, e⟩ := kv
    cases rest with
    | nil =>
      intro l hl c hc
      rw [show PriceStore.renderLines [(k, e)]
        = [PriceStore.renderLine k e] from rfl] at hl
      rw [List.mem_singleton] at hl
      subst hl
      exact renderLine_no_nl k (h (k, e) (by simp)) e c hc
    | cons kv2 rest2 =>
      intro l hl c hc
      rw [renderLines_cons] at hl
      rcases List.mem_cons.mp hl with hl | hl
      · subst hl
        rcases List.mem_append.mp hc with hc | hc
        · exact renderLine_no_nl k (h (k, e) (by simp)) e c hc
        · rw [List.mem_singleton] at hc
          subst hc
          decide
      · exact ih (fun kv hkv => h kv (by simp [hkv])) l hl c hc

/-- renderLines writes one line per binding. -/
theorem renderLines_length (s : PriceStore.Store) :
    (PriceStore.renderLines s).length = s.length := by
  induction s with
  | nil => rfl
  | cons kv rest ih =>
    obtain ⟨k, e⟩ := kv
    cases rest with
    | nil => rfl
    | cons y ys =>
      rw [renderLines_cons]
      simp only [List.length_cons, ih]

/-- parseEntryLines reads back the rendered lines of a store of safe keys
and canonical entries. -/
theorem parseEntryLines_renderLines (s : PriceStore.Store)
    (h : ∀ kv ∈ s, SafeKey kv.1 ∧ EntryCanon kv.2) :
    PriceStore.parseEntryLines (PriceStore.renderLines s) = some s := by
  induction s with
  | nil => rfl
  | cons kv rest ih =>
    obtain ⟨k, e⟩ := kv
    have hk := h (k, e) (by simp)
    cases rest with
    | nil =>
      show PriceStore.parseEntryLines [PriceStore.renderLine k e]
        = some [(k, e)]
      unfold PriceStore.parseEntryLines
      rw [parseEntryLine_render_last k hk.1 e hk.2]
      rfl
    | cons kv2 rest2 =>
      obtain ⟨a, l, hal⟩ := renderLines_cons_exists kv2 rest2
      have hrest := ih (fun kv hkv => h kv (by simp [hkv]))
      rw [renderLines_cons, hal]
      show (do
        let kv ← PriceStore.parseEntryLine true
          (PriceStore.renderLine k e ++ [','])
        let rest ← PriceStore.parseEntryLines (a :: l)
        pure (kv :: rest)) = some ((k, e) :: kv2 :: rest2)
      rw [parseEntryLine_render_mid k hk.1 e hk.2, ← hal, hrest]
      rfl

/-- A store whose keys are already sorted is fixed by sortStore. -/
theorem sortStore_eq_self (s : PriceStore.Store)
    (h : s.Pairwise (fun a b => PriceStore.keyLe a.1 b.1 = true)) :
    PriceStore.sortStore s = s := by
  induction s with
  | nil => rfl
  | cons x xs ih =>
    rw [List.pairwise_cons] at h
    unfold PriceStore.sortStore
    rw [ih h.2]
    cases xs with
    | nil => rfl
    | cons y ys =>
      unfold PriceStore.insertSorted
      rw [if_pos (h.1 y (by simp))]

/-- The witness store is canonical: sorted keys, safe keys, canonical
entries. -/
theorem storeC7_canon : StoreCanon storeC7 := by
  constructor
  · decide
  · intro kv hkv
    rcases List.mem_cons.mp hkv with h | h
    · subst h
      exact ⟨by unfold SafeKey SafeKeyChar; decide,
        ⟨5400, by norm_num⟩, by decide,
        ⟨5400, by norm_num⟩, by decide, by decide⟩
    rcases List.mem_cons.mp h with h | h
    · subst h
      exact ⟨by unfold SafeKey SafeKeyChar; decide,
        ⟨1200, by norm_num⟩, by decide,
        ⟨3000, by norm_num⟩, by decide, by decide⟩
    · exact absurd h (by simp)

/-- C7: for every canonical store (sorted, safe keys, 2-decimal prices,
nonnegative integer counters), load_store inverts save_store exactly; the
saved file splits into a brace line, one line per binding with the comma
on all but the last, a closing brace line and a final empty segment, and
ends with a newline. -/
theorem C7_store_persistence (x : PriceStore.Store) (hx : StoreCanon x) :
    PriceStore.load_store (PriceStore.save_store x) = x ∧
    PriceStore.splitOnNl (PriceStore.save_store x)
      = ['{'] :: (PriceStore.renderLines x ++ [['}'], []]) ∧
    (PriceStore.renderLines x).length = x.length ∧
    (PriceStore.save_store x).getLast? = some '\n' := by
  obtain ⟨hsort, hbind⟩ := hx
  have hss : PriceStore.sortStore x = x := sortStore_eq_self x hsort
  have hnl : ∀ l ∈ [['{']] ++ PriceStore.renderLines x ++ [['}']],
      ∀ c ∈ l, c ≠ '\n' := by
    intro l hl
    simp only [List.mem_append, List.mem_singleton] at hl
    rcases hl with (hl | hl) | hl
    · subst hl
      intro c hc
      rw [List.mem_singleton] at hc
      subst hc
      decide
    · exact renderLines_no_nl x (fun kv hkv => (hbind kv hkv).1) l hl
    · subst hl
      intro c hc
      rw [List.mem_singleton] at hc
      subst hc
      decide
  have hsplit : PriceStore.splitOnNl (PriceStore.save_store x)
      = ['{'] :: (PriceStore.renderLines x ++ [['}'], []]) := by
    unfold PriceStore.save_store
    rw [hss, splitOnNl_joinLines _ hnl]
    simp
  have hpl : PriceStore.parseEntryLines (PriceStore.renderLines x)
      = some x := parseEntryLines_renderLines x hbind
  have hrev : (PriceStore.renderLines x ++ [['}'], []]).reverse
      = [] :: ['}'] :: (PriceStore.renderLines x).reverse := by simp
  refine ⟨?_, hsplit, renderLines_length x, ?_⟩
  · unfold PriceStore.load_store
    rw [hsplit]
    simp [hrev, hpl]
  · unfold PriceStore.save_store
    rw [hss]
    unfold PriceStore.joinLines
    rw [List.flatMap_append]
    have h2 : ([['}']] : List Str).flatMap (· ++ ['\n']) = ['}'] ++ ['\n'] := by
      simp
    rw [h2, ← List.append_assoc, List.getLast?_concat]

/-- C7 witness: the persistence roundtrip and line-count facts at the
concrete two-entry store. -/
theorem C7_witness :
    StoreCanon storeC7 ∧
    PriceStore.load_store (PriceStore.save_store storeC7) = storeC7 ∧
    (PriceStore.renderLines storeC7).length = storeC7.length :=
  ⟨storeC7_canon, (C7_store_persistence storeC7 storeC7_canon).1,
    (C7_store_persistence storeC7 storeC7_canon).2.2.1⟩
